import Mathlib

/-!
Verification development for the digital-twin adversarial moderation demo.

Shallow embedding of:
  - src/rule_engine.py   (RuleEngine: 5-layer audit pipeline, statistics)
  - src/attack_knowledge.py (KnowledgeStore feed operations)
  - src/agents.py        (AttackAgent.learn_from_result, CentralInspectorAgent.inspect_content)
  - src/battle.py        (run_adversarial_battle, run_iterative_optimization)

Strings are modelled as lists of unicode characters (Python str).  Python
substring membership (the `in` operator) is `isSubstr`.  Lowercasing is
per-character `Char.toLower` (ASCII; the Chinese characters appearing in the
data have no case).  Wall-clock fields (processing_time, timestamp) are either
omitted or passed in as explicit parameters, since they carry no logic.
External effects (the pypinyin transliteration library, the LLM clients, the
random number generator) are modelled as explicit oracle parameters, matching
the spec requirement that random/external calls be injectable.
-/

namespace DTwin

/-- Python strings as lists of characters. -/
abbrev Str := List Char

/-- Python substring containment: `needle in hay`. -/
def isSubstr (needle : Str) : Str → Bool
  | [] => needle.isEmpty
  | hay@(_ :: rest) => needle.isPrefixOf hay || isSubstr needle rest

/-- Python str.lower, per character. -/
def lowerStr (s : Str) : Str := s.map Char.toLower

/-- Whitespace characters recognised by Python str.strip / the regex class \s
(ASCII range; exotic unicode whitespace does not occur in the data). -/
def pyIsSpace (c : Char) : Bool :=
  c == ' ' || c == '\t' || c == '\n' || c == '\r' || c == '\x0b' || c == '\x0c'

/-- Python str.strip(): drop whitespace from both ends. -/
def stripStr (s : Str) : Str :=
  ((s.dropWhile pyIsSpace).reverse.dropWhile pyIsSpace).reverse

/-- Characters removed by the cleaning step of RuleEngine.inspect
(the regex character class at src/rule_engine.py line 168). -/
def strippedPunct : List Char :=
  ['.', ',', ';', ':', '!', '?', '·', '|', '-', '_', '/', '\\',
   '。', '，', '；', '：', '！', '？', '、',
   '\u200b', '\u200c', '\u200d', '\ufeff']

/-- The cleaned copy of the content: whitespace, punctuation and zero-width
characters removed. -/
def cleanStr (s : Str) : Str :=
  s.filter (fun c => !(pyIsSpace c || strippedPunct.contains c))

/-- The blank test of RuleEngine.inspect: `not content or not content.strip()`. -/
def isBlankStr (s : Str) : Bool := s.isEmpty || (stripStr s).isEmpty

/-- A moderation rule (src/rule_engine.py set_rules: dicts with id, text, keywords). -/
structure Rule where
  id : Str
  text : Str
  keywords : List Str
deriving Repr, DecidableEq

/-- AuditResult (src/rule_engine.py lines 25-61).  processing_time (wall clock)
is not modelled. -/
structure AuditResult where
  detected : Bool
  hit_layer : Str
  hit_layer_num : Nat
  hit_rules : List Str
  hit_keywords : List Str
  detection_reason : Str
  confidence : Rat
deriving Repr, DecidableEq

/-- The freshly constructed AuditResult (its __init__). -/
def AuditResult.init : AuditResult :=
  { detected := false
    hit_layer := []
    hit_layer_num := 0
    hit_rules := []
    hit_keywords := []
    detection_reason := []
    confidence := 0 }

/-- AuditResult.block: mark as intercepted.  The Python keyword/rule arguments
default to None and are only assigned when truthy; callers pass [] for "absent". -/
def AuditResult.block (r : AuditResult) (layer : Str) (layer_num : Nat)
    (reason : Str) (confidence : Rat) (keywords : List Str) (rules : List Str) :
    AuditResult :=
  { r with
    detected := true
    hit_layer := layer
    hit_layer_num := layer_num
    detection_reason := reason
    confidence := confidence
    hit_keywords := if keywords.isEmpty then r.hit_keywords else keywords
    hit_rules := if rules.isEmpty then r.hit_rules else rules }

/-- BUILTIN_SENSITIVE_WORDS of RuleEngine (base word, enumerated variants),
in source order (Python dicts preserve insertion order). -/
def BUILTIN_SENSITIVE_WORDS : List (Str × List Str) := [
  ("习近平".data, ["xjp".data, "XJP".data, "习大大".data, "习主席".data, "刑平".data,
    "维尼".data, "🐻".data, "小熊维尼".data, "噗噗熊".data, "包子".data, "庆丰".data,
    "梁家河".data, "翠".data, "平子".data, "瓶子".data, "刁大大".data,
    "xi jin ping".data, "winnie".data]),
  ("共产党".data, ["gcd".data, "GCD".data, "土共".data, "中共".data, "tg".data,
    "TG".data, "CCP".data, "ccp".data, "躬惨裆".data, "赵家人".data]),
  ("六四".data, ["64".data, "8964".data, "八九六四".data, "五月三十五".data,
    "5月35日".data, "天安门事件".data, "坦克人".data, "liu si".data, "May35".data,
    "tiananmen".data]),
  ("政府".data, ["zf".data, "ZF".data, "正负".data, "zhengfu".data, "govt".data]),
  ("毛泽东".data, ["腊肉".data, "教员".data, "太祖".data, "mzd".data, "MZD".data]),
  ("文革".data, ["文化大革命".data, "十年浩劫".data, "文化大割命".data]),
  ("法轮功".data, ["flg".data, "FLG".data, "轮子".data, "大法".data]),
  ("台独".data, ["湾湾".data, "台巴子".data, "呆湾".data]),
  ("新疆".data, ["集中营".data, "再教育营".data, "棉花事件".data]),
  ("香港".data, ["反送中".data, "光复香港".data, "揽炒".data])]

/-- Item of a risk-phrase pattern: a literal alternation group `(a|b|c)` (a
single literal is a one-element group) or a bounded wildcard gap, the regex
fragment matching zero to n arbitrary non-newline characters. -/
inductive PatItem where
  | alts (ws : List Str)
  | anyUpTo (n : Nat)
deriving Repr, DecidableEq

/-- Match a sequence of pattern items anchored at the start of s. -/
def matchItemsFrom : List PatItem → Str → Bool
  | [], _ => true
  | (PatItem.alts ws) :: rest, s =>
    ws.any (fun w => w.isPrefixOf s && matchItemsFrom rest (s.drop w.length))
  | (PatItem.anyUpTo n) :: rest, s =>
    (List.range (n + 1)).any (fun k =>
      decide (k ≤ s.length) && (s.take k).all (fun c => c != '\n') &&
        matchItemsFrom rest (s.drop k))

/-- re.search: try the pattern at every start position. -/
def searchPat (p : List PatItem) : Str → Bool
  | [] => matchItemsFrom p []
  | s@(_ :: rest) => matchItemsFrom p s || searchPat p rest

/-- RISK_PATTERNS (src/rule_engine.py lines 91-104): each entry keeps the
pattern source text (braces written with escapes) next to its parsed form.
All patterns consist of literal alternation groups and bounded wildcard gaps;
the re.IGNORECASE flag is inert because no pattern contains a cased letter,
and none of the fixed patterns is malformed, so the re.error skip path of
_layer3_regex is unreachable. -/
def RISK_PATTERNS : List (Str × List PatItem) := [
  ("打倒.\x7b0,4\x7d(政府|政权|体制|制度)".data,
   [.alts ["打倒".data], .anyUpTo 4,
    .alts ["政府".data, "政权".data, "体制".data, "制度".data]]),
  ("推翻.\x7b0,4\x7d(政府|政权|体制|制度)".data,
   [.alts ["推翻".data], .anyUpTo 4,
    .alts ["政府".data, "政权".data, "体制".data, "制度".data]]),
  ("颠覆.\x7b0,4\x7d(政权|国家)".data,
   [.alts ["颠覆".data], .anyUpTo 4, .alts ["政权".data, "国家".data]]),
  ("(独裁|专制).\x7b0,4\x7d(政府|政权|体制|国家)".data,
   [.alts ["独裁".data, "专制".data], .anyUpTo 4,
    .alts ["政府".data, "政权".data, "体制".data, "国家".data]]),
  ("(暴政|暴君|独裁者)".data,
   [.alts ["暴政".data, "暴君".data, "独裁者".data]]),
  ("(民主|自由).\x7b0,2\x7d(万岁|必胜)".data,
   [.alts ["民主".data, "自由".data], .anyUpTo 2,
    .alts ["万岁".data, "必胜".data]]),
  ("共匪|赤匪".data, [.alts ["共匪".data, "赤匪".data]]),
  ("亡国|灭党".data, [.alts ["亡国".data, "灭党".data]]),
  ("(武装|暴力).\x7b0,4\x7d(起义|革命|反抗)".data,
   [.alts ["武装".data, "暴力".data], .anyUpTo 4,
    .alts ["起义".data, "革命".data, "反抗".data]]),
  ("寻衅滋事".data, [.alts ["寻衅滋事".data]]),
  ("(被|遭).\x7b0,2\x7d(失踪|喝茶|约谈|带走)".data,
   [.alts ["被".data, "遭".data], .anyUpTo 2,
    .alts ["失踪".data, "喝茶".data, "约谈".data, "带走".data]]),
  ("铁拳.\x7b0,4\x7d(砸|落|来)".data,
   [.alts ["铁拳".data], .anyUpTo 4, .alts ["砸".data, "落".data, "来".data]])]

/-- Parsed verdict of the optional layer-5 LLM call (the JSON fields violated /
reason / confidence; confidence defaults to 0.7 when missing, which the oracle
accounts for). -/
structure LlmJudgment where
  violated : Bool
  reason : Str
  confidence : Rat

/-- Session statistics of the RuleEngine (self.stats). -/
structure Stats where
  total_checked : Nat
  total_detected : Nat
  total_bypassed : Nat
  by_layer : List (Str × Nat)
  by_keyword : List (Str × Nat)
  by_technique : List (Str × Nat)
deriving Repr, DecidableEq

/-- The initial statistics dict. -/
def Stats.init : Stats :=
  { total_checked := 0
    total_detected := 0
    total_bypassed := 0
    by_layer := [("keyword".data, 0), ("pinyin".data, 0), ("regex".data, 0),
                 ("variant".data, 0), ("semantic".data, 0)]
    by_keyword := []
    by_technique := [] }

/-- Python `d[k] = d.get(k, 0) + 1` on an insertion-ordered dict. -/
def bumpCount : List (Str × Nat) → Str → List (Str × Nat)
  | [], k => [(k, 1)]
  | (k0, n) :: rest, k =>
    if k0 == k then (k0, n + 1) :: rest else (k0, n) :: bumpCount rest k

/-- RuleEngine state.  The optional LLM client together with its provider/model
identity and the _call_llm + JSON-parsing round trip is abstracted as `llm`:
none models no configured client, and `llm = some call` with `call content =
none` models a failed / timed-out / unparseable reply.  `pinyin` abstracts the
pypinyin transliteration: none models HAS_PYPYIN = False, and `some py` models
content ↦ join(lazy_pinyin(content)). -/
structure RuleEngine where
  rules : List Rule
  rule_keywords : List (Str × List Str)
  custom_variants : List (Str × List Str)
  llm : Option (Str → Option LlmJudgment)
  pinyin : Option (Str → Str)
  stats : Stats

/-- A fresh RuleEngine (its __init__, with no LLM client; transliteration
availability is a deployment parameter). -/
def RuleEngine.init (pinyin : Option (Str → Str)) : RuleEngine :=
  { rules := []
    rule_keywords := []
    custom_variants := []
    llm := none
    pinyin := pinyin
    stats := Stats.init }

/-- RuleEngine.set_rules: replace the rule set wholesale and rebuild the
per-rule keyword index. -/
def set_rules (e : RuleEngine) (rules : List Rule) : RuleEngine :=
  { e with
    rules := rules
    rule_keywords := rules.map (fun r => (r.id, r.keywords)) }

/-- One variant-teaching pass: Python's loop `for v in variants: if v and v not
in self.custom_variants[base_word]: append(v)`. -/
def addVariantsList (l : List Str) : List Str → List Str
  | [] => l
  | v :: vs =>
    addVariantsList (if !v.isEmpty && !l.contains v then l ++ [v] else l) vs

/-- Update the entry of key b in an insertion-ordered dict by teaching vs. -/
def updateVariantEntry : List (Str × List Str) → Str → List Str →
    List (Str × List Str)
  | [], _, _ => []
  | (k, l) :: rest, b, vs =>
    if k == b then (k, addVariantsList l vs) :: rest
    else (k, l) :: updateVariantEntry rest b vs

/-- RuleEngine.add_custom_variants (src/rule_engine.py lines 144-150).  The
Python method returns None: no count is reported and no version counter exists
on the engine. -/
def add_custom_variants (e : RuleEngine) (base_word : Str) (variants : List Str) :
    RuleEngine :=
  let cv :=
    if (e.custom_variants.find? (fun p => p.1 == base_word)).isSome then
      e.custom_variants
    else e.custom_variants ++ [(base_word, [])]
  { e with custom_variants := updateVariantEntry cv base_word variants }

/-- The layer-1a keyword test: `kw in content or kw.lower() in content_lower
or kw in content_clean`. -/
def kwHit (content content_lower content_clean kw : Str) : Bool :=
  isSubstr kw content || isSubstr (lowerStr kw) content_lower ||
    isSubstr kw content_clean

/-- First rule whose keyword list contains a valid (nonempty, length ≥ 2)
matching keyword, with that keyword (_layer1_keyword step 1a). -/
def findRuleHit (rules : List Rule) (content content_lower content_clean : Str) :
    Option (Rule × Str) :=
  rules.findSome? (fun rule =>
    (rule.keywords.find? (fun kw =>
      !kw.isEmpty && decide (2 ≤ kw.length) &&
        kwHit content content_lower content_clean kw)).map (fun kw => (rule, kw)))

/-- Source of a built-in dictionary hit: a base term or an enumerated variant. -/
inductive BuiltinHit where
  | base (w : Str)
  | variant (b v : Str)
deriving Repr, DecidableEq

/-- _layer1_keyword step 1b: scan the built-in dictionary in order; for each
entry the base term is tested against the cleaned content first, then each
variant against the lowered cleaned content or the raw content. -/
def findBuiltinHit : List (Str × List Str) → Str → Str → Str → Option BuiltinHit
  | [], _, _, _ => none
  | (base_word, variants) :: rest, content, content_clean, content_clean_lower =>
    if isSubstr base_word content_clean then some (.base base_word)
    else
      match variants.find? (fun v =>
        isSubstr (lowerStr v) content_clean_lower || isSubstr v content) with
      | some v => some (.variant base_word v)
      | none => findBuiltinHit rest content content_clean content_clean_lower

/-- Layer 1: exact keyword matching (RuleEngine._layer1_keyword). -/
def layer1_keyword (e : RuleEngine)
    (content content_lower content_clean content_clean_lower : Str)
    (result : AuditResult) : AuditResult :=
  match findRuleHit e.rules content content_lower content_clean with
  | some (rule, kw) =>
    result.block "keyword".data 1 ("关键词匹配: ".data ++ kw) 1 [kw] [rule.id]
  | none =>
    match findBuiltinHit BUILTIN_SENSITIVE_WORDS content content_clean
        content_clean_lower with
    | some (.base w) =>
      result.block "keyword".data 1 ("敏感词: ".data ++ w) (0.95 : Rat) [w] []
    | some (.variant b v) =>
      result.block "keyword".data 1
        ("敏感词变体: ".data ++ v ++ " (原词:".data ++ b ++ ")".data)
        (0.9 : Rat) [b ++ "→".data ++ v] []
    | none => result

/-- The candidate terms of layer 2: built-in base terms, then every valid rule
keyword. -/
def pinyinCandidates (e : RuleEngine) : List Str :=
  BUILTIN_SENSITIVE_WORDS.map Prod.fst ++
    e.rules.foldl (fun acc rule =>
      acc ++ rule.keywords.filter (fun kw =>
        !kw.isEmpty && decide (2 ≤ kw.length))) []

/-- Layer 2: phonetic reconstruction (RuleEngine._layer2_pinyin).  With no
transliteration capability the layer is the identity; otherwise the first
candidate whose phonetic form has at least 4 symbols, occurs in the content's
phonetic form, and is itself absent from the cleaned content, fires.  The
transliteration oracle is total, so the try/except is unreachable. -/
def layer2_pinyin (e : RuleEngine) (content_clean : Str) (result : AuditResult) :
    AuditResult :=
  match e.pinyin with
  | none => result
  | some py =>
    let content_pinyin := py content_clean
    match (pinyinCandidates e).find? (fun word =>
      decide (4 ≤ (py word).length) && isSubstr (py word) content_pinyin &&
        !isSubstr word content_clean) with
    | some word =>
      result.block "pinyin".data 2
        ("拼音还原命中: 内容拼音含".data ++ py word ++ " (原词:".data ++ word
          ++ ")".data)
        (0.85 : Rat) ["拼音:".data ++ word] []
    | none => result

/-- First risk pattern matching the raw content (flag true) or, failing that,
the cleaned content (flag false), in pattern order. -/
def findPatternHit : List (Str × List PatItem) → Str → Str → Option (Str × Bool)
  | [], _, _ => none
  | (src, p) :: rest, content, content_clean =>
    if searchPat p content then some (src, true)
    else if searchPat p content_clean then some (src, false)
    else findPatternHit rest content content_clean

/-- Layer 3: risk-phrase pattern matching (RuleEngine._layer3_regex). -/
def layer3_regex (content content_clean : Str) (result : AuditResult) :
    AuditResult :=
  match findPatternHit RISK_PATTERNS content content_clean with
  | some (src, true) =>
    result.block "regex".data 3 ("风险句式: ".data ++ src) (0.8 : Rat) [src] []
  | some (src, false) =>
    result.block "regex".data 3 ("风险句式(清洗后): ".data ++ src) (0.75 : Rat)
      [src] []
  | none => result

/-- Layer 4: learned custom variants (RuleEngine._layer4_custom_variants). -/
def layer4_custom_variants (e : RuleEngine)
    (content_lower content_clean_lower : Str) (result : AuditResult) :
    AuditResult :=
  match e.custom_variants.findSome? (fun bv =>
    (bv.2.find? (fun v =>
      isSubstr (lowerStr v) content_lower ||
        isSubstr (lowerStr v) content_clean_lower)).map (fun v => (bv.1, v))) with
  | some (b, v) =>
    result.block "variant".data 4
      ("自定义变体: ".data ++ v ++ " (原词:".data ++ b ++ ")".data)
      (0.85 : Rat) ["自定义:".data ++ b ++ "→".data ++ v] []
  | none => result

/-- Layer 5: optional LLM semantic fallback (RuleEngine._layer5_semantic).
Fires only with a configured client, a nonempty rule set, and a parsed reply
whose violated flag is set; every failure path leaves the result untouched. -/
def layer5_semantic (e : RuleEngine) (content : Str) (result : AuditResult) :
    AuditResult :=
  match e.llm with
  | none => result
  | some call =>
    if e.rules.isEmpty then result
    else
      match call content with
      | none => result
      | some a =>
        if a.violated then
          result.block "semantic".data 5 ("语义检测: ".data ++ a.reason)
            a.confidence [] []
        else result

/-- RuleEngine._update_stats. -/
def updateStats (st : Stats) (result : AuditResult) (technique_used : Str) :
    Stats :=
  if result.detected then
    let st := { st with total_detected := st.total_detected + 1 }
    let st :=
      if result.hit_layer.isEmpty then st
      else { st with by_layer := bumpCount st.by_layer result.hit_layer }
    let st :=
      if technique_used.isEmpty then st
      else { st with by_technique := bumpCount st.by_technique technique_used }
    { st with by_keyword := result.hit_keywords.foldl bumpCount st.by_keyword }
  else { st with total_bypassed := st.total_bypassed + 1 }

/-- RuleEngine.inspect (src/rule_engine.py lines 152-203): the 5-layer
short-circuit pipeline, returning the audit result and the engine with its
statistics updated. -/
def inspect (e : RuleEngine) (content : Str) (technique_used : Str) :
    AuditResult × RuleEngine :=
  let e1 : RuleEngine :=
    { e with stats :=
        { e.stats with total_checked := e.stats.total_checked + 1 } }
  let result := AuditResult.init
  if isBlankStr content then (result, e1)
  else
    let content_lower := lowerStr content
    let content_clean := cleanStr content
    let content_clean_lower := lowerStr content_clean
    let r1 := layer1_keyword e1 content content_lower content_clean
      content_clean_lower result
    if r1.detected then
      (r1, { e1 with stats := updateStats e1.stats r1 technique_used })
    else
      let r2 := layer2_pinyin e1 content_clean r1
      if r2.detected then
        (r2, { e1 with stats := updateStats e1.stats r2 technique_used })
      else
        let r3 := layer3_regex content content_clean r2
        if r3.detected then
          (r3, { e1 with stats := updateStats e1.stats r3 technique_used })
        else
          let r4 := layer4_custom_variants e1 content_lower content_clean_lower
            r3
          if r4.detected then
            (r4, { e1 with stats := updateStats e1.stats r4 technique_used })
          else
            let r5 := layer5_semantic e1 content r4
            (r5, { e1 with stats := updateStats e1.stats r5 technique_used })

/-! ### Knowledge store (src/attack_knowledge.py) -/

/-- A fed text material (timestamps are passed in by the caller). -/
structure MaterialEntry where
  text : Str
  category : Str
  timestamp : Nat
deriving Repr, DecidableEq

/-- A fed slang/jargon entry. -/
structure SlangEntry where
  term : Str
  meaning : Str
  timestamp : Nat
deriving Repr, DecidableEq

/-- A fed bypass case. -/
structure CaseEntry where
  original : Str
  bypass : Str
  technique : Str
  timestamp : Nat
deriving Repr, DecidableEq

/-- KnowledgeStore state (src/attack_knowledge.py lines 243-254). -/
structure KnowledgeStore where
  fed_materials : List MaterialEntry
  fed_slang : List SlangEntry
  fed_cases : List CaseEntry
  version : Nat
deriving Repr, DecidableEq

/-- A fresh KnowledgeStore. -/
def KnowledgeStore.init : KnowledgeStore :=
  { fed_materials := [], fed_slang := [], fed_cases := [], version := 0 }

/-- Loop body of feed_materials: append the stripped text when it is nonempty
and of length ≥ 5, counting the append. -/
def feedMaterialsStep (category : Str) (now : Nat) (p : KnowledgeStore × Nat)
    (raw : Str) : KnowledgeStore × Nat :=
  let text := stripStr raw
  if !text.isEmpty && decide (5 ≤ text.length) then
    ({ p.1 with fed_materials :=
        p.1.fed_materials ++ [⟨text, category, now⟩] }, p.2 + 1)
  else p

/-- KnowledgeStore.feed_materials: append every stripped text of length ≥ 5,
return the store and the count appended; the version is bumped once when the
count is positive. -/
def feed_materials (ks : KnowledgeStore) (texts : List Str) (category : Str)
    (now : Nat) : KnowledgeStore × Nat :=
  let p := texts.foldl (feedMaterialsStep category now) (ks, 0)
  if 0 < p.2 then ({ p.1 with version := p.1.version + 1 }, p.2) else p

/-- An input entry of feed_slang: a dict with term/meaning, or a plain string
to be split at the first = or →. -/
inductive SlangInput where
  | dict (term meaning : Str)
  | txt (s : Str)
deriving Repr, DecidableEq

/-- Python str.split(sep, 1): the parts before and after the first occurrence,
or none when the separator is absent. -/
def splitFirst (sep : Char) : Str → Option (Str × Str)
  | [] => none
  | c :: rest =>
    if c == sep then some ([], rest)
    else (splitFirst sep rest).map (fun p => (c :: p.1, p.2))

/-- Parse one feed_slang entry into a stripped (term, meaning) pair. -/
def parseSlang : SlangInput → Option (Str × Str)
  | .dict t m => some (stripStr t, stripStr m)
  | .txt s =>
    match splitFirst '=' s with
    | some (a, b) => some (stripStr a, stripStr b)
    | none =>
      match splitFirst '→' s with
      | some (a, b) => some (stripStr a, stripStr b)
      | none => none

/-- Loop body of feed_slang: parse the entry and append it when the term is
nonempty. -/
def feedSlangStep (now : Nat) (p : KnowledgeStore × Nat) (entry : SlangInput) :
    KnowledgeStore × Nat :=
  match parseSlang entry with
  | none => p
  | some (term, meaning) =>
    if !term.isEmpty then
      ({ p.1 with fed_slang := p.1.fed_slang ++ [⟨term, meaning, now⟩] },
        p.2 + 1)
    else p

/-- KnowledgeStore.feed_slang. -/
def feed_slang (ks : KnowledgeStore) (entries : List SlangInput) (now : Nat) :
    KnowledgeStore × Nat :=
  let p := entries.foldl (feedSlangStep now) (ks, 0)
  if 0 < p.2 then ({ p.1 with version := p.1.version + 1 }, p.2) else p

/-- An input entry of feed_cases: a dict (with the technique key possibly
absent, defaulting to 通用) or a non-dict value, which is skipped. -/
inductive CaseInput where
  | dict (original bypass : Str) (technique : Option Str)
  | other
deriving Repr, DecidableEq

/-- Loop body of feed_cases: append dict entries with a nonempty stripped
bypass text, skip everything else. -/
def feedCasesStep (now : Nat) (p : KnowledgeStore × Nat) (c : CaseInput) :
    KnowledgeStore × Nat :=
  match c with
  | .other => p
  | .dict o b t =>
    let original := stripStr o
    let bypass := stripStr b
    let technique := stripStr (t.getD "通用".data)
    if !bypass.isEmpty then
      ({ p.1 with fed_cases :=
          p.1.fed_cases ++ [⟨original, bypass, technique, now⟩] }, p.2 + 1)
    else p

/-- KnowledgeStore.feed_cases. -/
def feed_cases (ks : KnowledgeStore) (cases : List CaseInput) (now : Nat) :
    KnowledgeStore × Nat :=
  let p := cases.foldl (feedCasesStep now) (ks, 0)
  if 0 < p.2 then ({ p.1 with version := p.1.version + 1 }, p.2) else p

/-! ### Attack agent and escalation (src/agents.py) -/

/-- The feedback fields that learn_from_result records on last_strategy (the
crafted-result dict also carries presentation fields, consumed only by the
LLM prompt and the frontend, which are not modelled). -/
structure StrategyRecord where
  detected : Bool
  hit_layer : Str
  hit_layer_num : Nat
deriving Repr, DecidableEq

/-- Mutable per-agent state of agents.AttackAgent, also mirrored in
SYSTEM_STATE["peripheral_agents"]. -/
structure AgentState where
  learned_techniques : List Str
  success_count : Nat
  fail_count : Nat
  evolution_level : Nat
  last_strategy : Option StrategyRecord
deriving Repr, DecidableEq

/-- The agent state defaults used on construction and on restore from
SYSTEM_STATE (learned [], counts 0, evolution level 1, no last strategy). -/
def AgentState.init : AgentState :=
  { learned_techniques := []
    success_count := 0
    fail_count := 0
    evolution_level := 1
    last_strategy := none }

/-- agents.AttackAgent.learn_from_result (src/agents.py lines 763-791).  The
call random.random() < 0.3 guarding technique reinforcement on success is the
injected boolean `reinforce`; the failure branch is deterministic.  The final
SYSTEM_STATE mirror copy is performed by the caller embedding (see
run_adversarial_battle). -/
def learn_from_result (a : AgentState) (success : Bool) (technique_used : Str)
    (detected : Bool) (hit_layer : Str) (hit_layer_num : Nat)
    (reinforce : Bool) : AgentState :=
  let a : AgentState :=
    { a with last_strategy := a.last_strategy.map (fun (s : StrategyRecord) =>
      { s with
        detected := detected
        hit_layer := hit_layer
        hit_layer_num := hit_layer_num }) }
  if success then
    let a := { a with success_count := a.success_count + 1 }
    if !technique_used.isEmpty && !a.learned_techniques.contains technique_used
        && reinforce then
      { a with learned_techniques :=
          a.learned_techniques ++ [technique_used ++ "进阶".data] }
    else a
  else
    { a with
      fail_count := a.fail_count + 1
      evolution_level := min (a.evolution_level + 1) 5 }

/-- Statistics dict of CentralInspectorAgent (detection_stats). -/
structure InspectorStats where
  total_checked : Nat
  total_detected : Nat
  total_bypassed : Nat
  by_technique : List (Str × Nat)
  by_keyword : List (Str × Nat)
deriving Repr, DecidableEq

/-- CentralInspectorAgent.inspect_content (src/agents.py lines 385-415):
counts the check, returns a default non-detected dict on empty content
without consulting the engine, otherwise delegates to RuleEngine.inspect and
mirrors the outcome into its own statistics. -/
def inspect_content (ins : InspectorStats) (eng : RuleEngine)
    (content technique_used : Str) : AuditResult × InspectorStats × RuleEngine :=
  let ins := { ins with total_checked := ins.total_checked + 1 }
  if content.isEmpty then (AuditResult.init, ins, eng)
  else
    let ae := inspect eng content technique_used
    if ae.1.detected then
      let ins := { ins with total_detected := ins.total_detected + 1 }
      let ins :=
        if technique_used.isEmpty then ins
        else { ins with by_technique := bumpCount ins.by_technique technique_used }
      let ins :=
        { ins with by_keyword := ae.1.hit_keywords.foldl bumpCount ins.by_keyword }
      (ae.1, ins, ae.2)
    else (ae.1, { ins with total_bypassed := ins.total_bypassed + 1 }, ae.2)

/-! ### Battle orchestrator (src/battle.py) -/

/-- The persona fields consumed by the orchestrator; the description /
system-prompt text feeds only the LLM prompt. -/
structure Persona where
  id : Str
  name : Str
  category : Str
  behavior_patterns : List Str
deriving Repr, DecidableEq

/-- A battle record as assembled by run_adversarial_battle (timestamps and
processing times omitted; the defense block is the engine's AuditResult). -/
structure BattleRecord where
  persona_id : Str
  persona_name : Str
  category : Str
  target_topic : Str
  content : Str
  technique_used : Str
  complexity_score : Int
  attack_evolution_level : Nat
  iteration : Nat
  defense : AuditResult
  bypass_success : Bool
deriving Repr, DecidableEq

/-- Everything run_adversarial_battle can read or write: the persona index,
SYSTEM_STATE (peripheral agents, battle history, rules), the global rule
engine, the central inspector's statistics and the global knowledge store. -/
structure World where
  persona_index : List (Str × Persona)
  peripheral_agents : List (Str × AgentState)
  battle_history : List BattleRecord
  rules : List Rule
  rules_version : Nat
  engine : RuleEngine
  inspector : InspectorStats
  knowledge : KnowledgeStore

/-- Python dict .get. -/
def lookupAssoc (l : List (Str × α)) (k : Str) : Option α :=
  (l.find? (fun p => p.1 == k)).map Prod.snd

/-- Python dict item assignment (the key is present for every known persona;
assignment to a fresh key appends). -/
def setAssoc : List (Str × α) → Str → α → List (Str × α)
  | [], k, v => [(k, v)]
  | (k0, v0) :: rest, k, v =>
    if k0 == k then (k0, v) :: rest else (k0, v0) :: setAssoc rest k v

/-- The output of AttackAgent.craft_attack that the orchestrator consumes. -/
structure CraftResult where
  content : Str
  technique_used : Str
  complexity_score : Int
deriving Repr, DecidableEq

/-- Oracles for the orchestrator's external effects: random topic choice,
LLM-backed content generation (a function of persona, restored agent state,
topic, iteration and the readable knowledge store), and the learn_from_result
reinforcement coin. -/
structure BattleOracle where
  chooseTopic : List Str → Str
  craft : Persona → AgentState → Str → Nat → KnowledgeStore → CraftResult
  reinforce : Bool

/-- battle._get_sensitive_keywords_from_rules: the set of rule keywords of
length ≥ 2 (Python builds a set; duplicates removed, order absorbed by the
chooseTopic oracle). -/
def sensitiveKeywordsFromRules (rules : List Rule) : List Str :=
  (rules.foldl (fun acc r =>
    acc ++ r.keywords.filter (fun kw => decide (2 ≤ kw.length))) []).dedup

/-- The default topic pool of run_adversarial_battle. -/
def DEFAULT_TOPICS : List Str :=
  ["政治".data, "领导人".data, "政府".data, "历史事件".data, "社会问题".data]

/-- battle.run_adversarial_battle (src/battle.py lines 201-294).  An unknown
persona id returns the error dict {"error": "Agent不存在"} before any shared
state is touched.  Otherwise: resolve the topic, restore the agent state,
generate content (craft_attack sets last_strategy to the crafted record, whose
feedback fields start at their defaults), classify, update the agent through
learn_from_result and mirror it into SYSTEM_STATE, and append the record to
the battle history. -/
def run_adversarial_battle (o : BattleOracle) (w : World) (persona_id : Str)
    (target_keyword : Option Str) (iteration : Nat) :
    Except Str BattleRecord × World :=
  match lookupAssoc w.persona_index persona_id with
  | none => (Except.error "Agent不存在".data, w)
  | some persona =>
    let topic :=
      match target_keyword with
      | some t => t
      | none =>
        let kws := sensitiveKeywordsFromRules w.rules
        if kws.isEmpty then o.chooseTopic DEFAULT_TOPICS else o.chooseTopic kws
    let st0 := (lookupAssoc w.peripheral_agents persona_id).getD AgentState.init
    let cr := o.craft persona st0 topic iteration w.knowledge
    let a0 := { st0 with last_strategy := some ⟨false, [], 0⟩ }
    let aie := inspect_content w.inspector w.engine cr.content cr.technique_used
    let audit := aie.1
    let bypass_success := !audit.detected
    let a1 := learn_from_result a0 bypass_success cr.technique_used
      audit.detected audit.hit_layer audit.hit_layer_num o.reinforce
    let record : BattleRecord :=
      { persona_id := persona_id
        persona_name := persona.name
        category := persona.category
        target_topic := topic
        content := cr.content
        technique_used := cr.technique_used
        complexity_score := cr.complexity_score
        attack_evolution_level := a1.evolution_level
        iteration := iteration
        defense := audit
        bypass_success := bypass_success }
    (Except.ok record,
      { w with
        peripheral_agents := setAssoc w.peripheral_agents persona_id a1
        battle_history := w.battle_history ++ [record]
        inspector := aie.2.1
        engine := aie.2.2 })

/-- The record returned by run_iterative_optimization. -/
structure OptRecord where
  persona_id : Str
  target_keyword : Str
  iterations : List BattleRecord
  total_iterations : Nat
  success_iteration : Option Nat
  final_success : Bool
  improvement : Int
deriving Repr, DecidableEq

/-- The loop of run_iterative_optimization: run battles with increasing
iteration index, collecting records, stopping early after the first bypass
success.  The Python code indexes result["result"] on an error dict and would
raise KeyError; this is modelled by propagating the error. -/
def runIterAux (o : BattleOracle) (persona_id target_keyword : Str) :
    Nat → Nat → World → List BattleRecord →
    Except Str (List BattleRecord) × World
  | 0, _, w, acc => (Except.ok acc, w)
  | fuel + 1, i, w, acc =>
    match run_adversarial_battle o w persona_id (some target_keyword) i with
    | (Except.error e, w1) => (Except.error e, w1)
    | (Except.ok r, w1) =>
      if r.bypass_success then (Except.ok (acc ++ [r]), w1)
      else runIterAux o persona_id target_keyword fuel (i + 1) w1 (acc ++ [r])

/-- battle.run_iterative_optimization (src/battle.py lines 297-325). -/
def run_iterative_optimization (o : BattleOracle) (w : World)
    (persona_id target_keyword : Str) (max_iterations : Nat) :
    Except Str OptRecord × World :=
  match runIterAux o persona_id target_keyword max_iterations 0 w [] with
  | (Except.error e, w1) => (Except.error e, w1)
  | (Except.ok iters, w1) =>
    (Except.ok
      { persona_id := persona_id
        target_keyword := target_keyword
        iterations := iters
        total_iterations := iters.length
        success_iteration := iters.findIdx? (fun r => r.bypass_success)
        final_success := ((iters.getLast?).map (fun r => r.bypass_success)).getD
          false
        improvement :=
          ((iters.getLast?).map (fun r => r.complexity_score)).getD 0 -
            ((iters.head?).map (fun r => r.complexity_score)).getD 0 }, w1)


/-! ### Derived definitions used by the verification -/

/-- Run a single detection layer (1-5) on a result, with the derived content
copies computed as in inspect; other indices are the identity. -/
def runLayerOn (e : RuleEngine) (content : Str) (k : Nat) (r : AuditResult) :
    AuditResult :=
  match k with
  | 1 => layer1_keyword e content (lowerStr content) (cleanStr content)
      (lowerStr (cleanStr content)) r
  | 2 => layer2_pinyin e (cleanStr content) r
  | 3 => layer3_regex content (cleanStr content) r
  | 4 => layer4_custom_variants e (lowerStr content)
      (lowerStr (cleanStr content)) r
  | 5 => layer5_semantic e content r
  | _ => r

/-- Layer k matches the content: running it on a fresh result detects. -/
def layerFires (e : RuleEngine) (content : Str) (k : Nat) : Bool :=
  (runLayerOn e content k AuditResult.init).detected

/-- The hit_layer name paired with each layer number. -/
def layerNameOf : Nat → Str
  | 1 => "keyword".data
  | 2 => "pinyin".data
  | 3 => "regex".data
  | 4 => "variant".data
  | 5 => "semantic".data
  | _ => []

/-- The statistics with the checked counter bumped, as done on entry to
inspect. -/
def bumpChecked (s : Stats) : Stats :=
  { s with total_checked := s.total_checked + 1 }

/-- One detected-outcome call to learn_from_result (success = false), with the
per-round technique, hit layer, hit layer number and reinforcement coin. -/
def failStep (st : AgentState) (p : Str × Str × Nat × Bool) : AgentState :=
  learn_from_result st false p.1 true p.2.1 p.2.2.1 p.2.2.2

/-- The entries feed_materials appends, described directly from the filter
condition (spec-side characterization compared against the loop). -/
def specMaterialsEntries (texts : List Str) (category : Str) (now : Nat) :
    List MaterialEntry :=
  texts.filterMap (fun raw =>
    if !(stripStr raw).isEmpty && decide (5 ≤ (stripStr raw).length) then
      some ⟨stripStr raw, category, now⟩
    else none)

/-- The entries feed_slang appends (spec-side characterization). -/
def specSlangEntries (entries : List SlangInput) (now : Nat) :
    List SlangEntry :=
  entries.filterMap (fun entry =>
    match parseSlang entry with
    | none => none
    | some (term, meaning) =>
      if !term.isEmpty then some ⟨term, meaning, now⟩ else none)

/-- The entries feed_cases appends (spec-side characterization). -/
def specCaseEntries (cs : List CaseInput) (now : Nat) : List CaseEntry :=
  cs.filterMap (fun c =>
    match c with
    | .other => none
    | .dict o b t =>
      if !(stripStr b).isEmpty then
        some ⟨stripStr o, stripStr b, stripStr (t.getD "通用".data), now⟩
      else none)

/-! ### Concrete instances used by counterexamples and witnesses -/

/-- An engine with a whitespace rule keyword and a whitespace learned variant
(rule keywords and taught variants are not trimmed by the code). -/
def engC1 : RuleEngine :=
  add_custom_variants
    (set_rules (RuleEngine.init none) [⟨"R01".data, [], ["  ".data]⟩])
    "x".data [" ".data]

/-- The engine of the spec scenario taken literally: the single rule R01 with
the one-character keyword X. -/
def engC5 : RuleEngine :=
  set_rules (RuleEngine.init none) [⟨"R01".data, [], ["X".data]⟩]

/-- The scenario engine with a two-character keyword. -/
def engC5A : RuleEngine :=
  set_rules (RuleEngine.init none) [⟨"R01".data, [], ["XY".data]⟩]

/-- An engine whose transliteration oracle is character lowercasing, with one
rule keyword ABCD, so that content abcd matches phonetically but not
literally. -/
def engC6 : RuleEngine :=
  set_rules (RuleEngine.init (some lowerStr)) [⟨"R01".data, [], ["ABCD".data]⟩]

/-- Three consecutive detected outcomes. -/
def psC4 : List (Str × Str × Nat × Bool) :=
  [("谐音替代".data, "keyword".data, 1, false),
   ("谐音替代".data, "pinyin".data, 2, false),
   ("隐喻暗示".data, "regex".data, 3, false)]

/-- A one-persona world for the orchestrator witnesses. -/
def personaW : Persona := ⟨"p1".data, "演示用户".data, "普通".data, []⟩

/-- A world holding exactly persona p1 with fresh state. -/
def worldW : World :=
  { persona_index := [("p1".data, personaW)]
    peripheral_agents := [("p1".data, AgentState.init)]
    battle_history := []
    rules := []
    rules_version := 0
    engine := RuleEngine.init none
    inspector := ⟨0, 0, 0, [], []⟩
    knowledge := KnowledgeStore.init }

/-- A world with an empty persona index. -/
def worldEmpty : World :=
  { persona_index := []
    peripheral_agents := []
    battle_history := []
    rules := []
    rules_version := 0
    engine := RuleEngine.init none
    inspector := ⟨0, 0, 0, [], []⟩
    knowledge := KnowledgeStore.init }

/-- A deterministic oracle producing innocuous content. -/
def oracleW : BattleOracle :=
  { chooseTopic := fun _ => "话题".data
    craft := fun _ _ _ _ _ => ⟨"hello".data, "普通表达".data, 3⟩
    reinforce := false }

/-! ### Helper lemmas -/

theorem layer1_skip (e : RuleEngine) (c cl cc ccl : Str) (r : AuditResult)
    (h : (layer1_keyword e c cl cc ccl r).detected = false) :
    layer1_keyword e c cl cc ccl r = r := by
  unfold layer1_keyword at h ⊢
  cases hfr : findRuleHit e.rules c cl cc with
  | some rk =>
    obtain ⟨rule, kw⟩ := rk
    rw [hfr] at h
    simp [AuditResult.block] at h
  | none =>
    rw [hfr] at h
    cases hbh : findBuiltinHit BUILTIN_SENSITIVE_WORDS c cc ccl with
    | some bh =>
      rw [hbh] at h
      cases bh <;> simp [AuditResult.block] at h
    | none => rfl

theorem layer2_skip (e : RuleEngine) (cc : Str) (r : AuditResult)
    (h : (layer2_pinyin e cc r).detected = false) :
    layer2_pinyin e cc r = r := by
  unfold layer2_pinyin at h ⊢
  cases hpy : e.pinyin with
  | none => rfl
  | some py =>
    rw [hpy] at h
    simp only at h
    cases hf : (pinyinCandidates e).find? (fun word =>
      decide (4 ≤ (py word).length) && isSubstr (py word) (py cc) &&
        !isSubstr word cc) with
    | some w =>
      rw [hf] at h
      simp [AuditResult.block] at h
    | none =>
      simp only []
      rw [hf]

theorem layer3_skip (c cc : Str) (r : AuditResult)
    (h : (layer3_regex c cc r).detected = false) :
    layer3_regex c cc r = r := by
  unfold layer3_regex at h ⊢
  cases hf : findPatternHit RISK_PATTERNS c cc with
  | some sb =>
    obtain ⟨src, b⟩ := sb
    rw [hf] at h
    cases b <;> simp [AuditResult.block] at h
  | none => rfl

theorem layer4_skip (e : RuleEngine) (cl ccl : Str) (r : AuditResult)
    (h : (layer4_custom_variants e cl ccl r).detected = false) :
    layer4_custom_variants e cl ccl r = r := by
  unfold layer4_custom_variants at h ⊢
  cases hf : e.custom_variants.findSome? (fun bv =>
    (bv.2.find? (fun v =>
      isSubstr (lowerStr v) cl || isSubstr (lowerStr v) ccl)).map
        (fun v => (bv.1, v))) with
  | some bv =>
    obtain ⟨b, v⟩ := bv
    rw [hf] at h
    simp [AuditResult.block] at h
  | none => rfl

theorem layer5_skip (e : RuleEngine) (c : Str) (r : AuditResult)
    (h : (layer5_semantic e c r).detected = false) :
    layer5_semantic e c r = r := by
  unfold layer5_semantic at h ⊢
  cases hl : e.llm with
  | none => rfl
  | some call =>
    rw [hl] at h
    by_cases hr : e.rules.isEmpty
    · simp [hr]
    · simp only [hr, Bool.false_eq_true, if_false] at h ⊢
      cases hc : call c with
      | none => rfl
      | some a =>
        rw [hc] at h
        by_cases hv : a.violated
        · simp [hv, AuditResult.block] at h
        · simp [hv]

theorem layer1_stats (e : RuleEngine) (s : Stats) (c cl cc ccl : Str)
    (r : AuditResult) :
    layer1_keyword { e with stats := s } c cl cc ccl r =
      layer1_keyword e c cl cc ccl r := rfl

theorem layer2_stats (e : RuleEngine) (s : Stats) (cc : Str) (r : AuditResult) :
    layer2_pinyin { e with stats := s } cc r = layer2_pinyin e cc r := rfl

theorem layer4_stats (e : RuleEngine) (s : Stats) (cl ccl : Str)
    (r : AuditResult) :
    layer4_custom_variants { e with stats := s } cl ccl r =
      layer4_custom_variants e cl ccl r := rfl

theorem layer5_stats (e : RuleEngine) (s : Stats) (c : Str) (r : AuditResult) :
    layer5_semantic { e with stats := s } c r = layer5_semantic e c r := rfl

theorem init_detected : AuditResult.init.detected = false := rfl

theorem inspect_fst_eq (e : RuleEngine) (c t : Str) (h : isBlankStr c = false) :
    (inspect e c t).1 =
      match [1, 2, 3, 4, 5].find? (layerFires e c) with
      | some k => runLayerOn e c k AuditResult.init
      | none => AuditResult.init := by
  unfold inspect
  simp only [h, Bool.false_eq_true, if_false, layer1_stats, layer2_stats,
    layer4_stats, layer5_stats]
  by_cases f1 : layerFires e c 1
  · have d1 : (layer1_keyword e c (lowerStr c) (cleanStr c)
      (lowerStr (cleanStr c)) AuditResult.init).detected = true := f1
    simp [d1, List.find?, f1, runLayerOn]
  · have f1x : layerFires e c 1 = false := eq_false_of_ne_true f1
    have s1 := layer1_skip e c (lowerStr c) (cleanStr c) (lowerStr (cleanStr c))
      AuditResult.init f1x
    simp only [s1, init_detected, Bool.false_eq_true, if_false]
    by_cases f2 : layerFires e c 2
    · have d2 : (layer2_pinyin e (cleanStr c) AuditResult.init).detected =
        true := f2
      simp [d2, List.find?, f1x, f2, runLayerOn]
    · have f2x : layerFires e c 2 = false := eq_false_of_ne_true f2
      have s2 := layer2_skip e (cleanStr c) AuditResult.init f2x
      simp only [s2, init_detected, Bool.false_eq_true, if_false]
      by_cases f3 : layerFires e c 3
      · have d3 : (layer3_regex c (cleanStr c) AuditResult.init).detected =
          true := f3
        simp [d3, List.find?, f1x, f2x, f3, runLayerOn]
      · have f3x : layerFires e c 3 = false := eq_false_of_ne_true f3
        have s3 := layer3_skip c (cleanStr c) AuditResult.init f3x
        simp only [s3, init_detected, Bool.false_eq_true, if_false]
        by_cases f4 : layerFires e c 4
        · have d4 : (layer4_custom_variants e (lowerStr c)
            (lowerStr (cleanStr c)) AuditResult.init).detected = true := f4
          simp [d4, List.find?, f1x, f2x, f3x, f4, runLayerOn]
        · have f4x : layerFires e c 4 = false := eq_false_of_ne_true f4
          have s4 := layer4_skip e (lowerStr c) (lowerStr (cleanStr c))
            AuditResult.init f4x
          simp only [s4, init_detected, Bool.false_eq_true, if_false]
          by_cases f5 : layerFires e c 5
          · simp [List.find?, f1x, f2x, f3x, f4x, f5, runLayerOn]
          · have f5x : layerFires e c 5 = false := eq_false_of_ne_true f5
            have s5 := layer5_skip e c AuditResult.init f5x
            simp [s5, List.find?, f1x, f2x, f3x, f4x, f5x]

theorem runLayer_blocked (e : RuleEngine) (c : Str) (k : Nat)
    (h : (runLayerOn e c k AuditResult.init).detected = true) :
    (runLayerOn e c k AuditResult.init).hit_layer = layerNameOf k ∧
      (runLayerOn e c k AuditResult.init).hit_layer_num = k := by
  match k with
  | 0 => simp [runLayerOn, AuditResult.init] at h
  | 1 =>
    unfold runLayerOn at h ⊢
    unfold layer1_keyword at h ⊢
    cases hfr : findRuleHit e.rules c (lowerStr c) (cleanStr c) with
    | some rk =>
      obtain ⟨rule, kw⟩ := rk
      simp [AuditResult.block, layerNameOf]
    | none =>
      rw [hfr] at h
      cases hbh : findBuiltinHit BUILTIN_SENSITIVE_WORDS c (cleanStr c)
          (lowerStr (cleanStr c)) with
      | some bh => cases bh <;> simp [AuditResult.block, layerNameOf]
      | none => rw [hbh] at h; simp [AuditResult.init] at h
  | 2 =>
    unfold runLayerOn at h ⊢
    unfold layer2_pinyin at h ⊢
    cases hpy : e.pinyin with
    | none => rw [hpy] at h; simp [AuditResult.init] at h
    | some py =>
      rw [hpy] at h
      simp only at h ⊢
      cases hf : (pinyinCandidates e).find? (fun word =>
        decide (4 ≤ (py word).length) &&
          isSubstr (py word) (py (cleanStr c)) &&
          !isSubstr word (cleanStr c)) with
      | some w => simp [AuditResult.block, layerNameOf]
      | none => rw [hf] at h; simp [AuditResult.init] at h
  | 3 =>
    unfold runLayerOn at h ⊢
    unfold layer3_regex at h ⊢
    cases hf : findPatternHit RISK_PATTERNS c (cleanStr c) with
    | some sb =>
      obtain ⟨src, b⟩ := sb
      cases b <;> simp [AuditResult.block, layerNameOf]
    | none => rw [hf] at h; simp [AuditResult.init] at h
  | 4 =>
    unfold runLayerOn at h ⊢
    unfold layer4_custom_variants at h ⊢
    cases hf : e.custom_variants.findSome? (fun bv =>
      (bv.2.find? (fun v =>
        isSubstr (lowerStr v) (lowerStr c) ||
          isSubstr (lowerStr v) (lowerStr (cleanStr c)))).map
            (fun v => (bv.1, v))) with
    | some bv =>
      obtain ⟨b, v⟩ := bv
      simp [AuditResult.block, layerNameOf]
    | none => rw [hf] at h; simp [AuditResult.init] at h
  | 5 =>
    unfold runLayerOn at h ⊢
    unfold layer5_semantic at h ⊢
    cases hl : e.llm with
    | none => rw [hl] at h; simp [AuditResult.init] at h
    | some call =>
      rw [hl] at h
      by_cases hr : e.rules.isEmpty
      · simp [hr, AuditResult.init] at h
      · simp only [hr, Bool.false_eq_true, if_false] at h ⊢
        cases hc : call c with
        | none => rw [hc] at h; simp [AuditResult.init] at h
        | some a =>
          rw [hc] at h
          by_cases hv : a.violated
          · simp [hv, AuditResult.block, layerNameOf]
          · simp [hv, AuditResult.init] at h
  | n + 6 => simp [runLayerOn, AuditResult.init] at h

theorem find5_min (p : Nat → Bool) (k : Nat)
    (hk : [1, 2, 3, 4, 5].find? p = some k)
    (m : Nat) (h1 : 1 ≤ m) (hm : m < k) : p m = false := by
  by_cases p1 : p 1 <;> by_cases p2 : p 2 <;> by_cases p3 : p 3 <;>
    by_cases p4 : p 4 <;> by_cases p5 : p 5 <;>
    simp [List.find?, p1, p2, p3, p4, p5] at hk <;>
    (try subst hk) <;> (try omega) <;> (interval_cases m <;> simp_all)

theorem layer1_cases (e : RuleEngine) (c cl cc ccl : Str)
    (h : (layer1_keyword e c cl cc ccl AuditResult.init).detected = true) :
    (∃ rule kw, findRuleHit e.rules c cl cc = some (rule, kw) ∧
      (layer1_keyword e c cl cc ccl AuditResult.init).confidence = 1 ∧
      (layer1_keyword e c cl cc ccl AuditResult.init).hit_rules = [rule.id]) ∨
    (∃ w, findRuleHit e.rules c cl cc = none ∧
      findBuiltinHit BUILTIN_SENSITIVE_WORDS c cc ccl =
        some (BuiltinHit.base w) ∧
      (layer1_keyword e c cl cc ccl AuditResult.init).confidence = 0.95 ∧
      (layer1_keyword e c cl cc ccl AuditResult.init).hit_rules = []) ∨
    (∃ b v, findRuleHit e.rules c cl cc = none ∧
      findBuiltinHit BUILTIN_SENSITIVE_WORDS c cc ccl =
        some (BuiltinHit.variant b v) ∧
      (layer1_keyword e c cl cc ccl AuditResult.init).confidence = 0.9 ∧
      (layer1_keyword e c cl cc ccl AuditResult.init).hit_rules = []) := by
  unfold layer1_keyword at h ⊢
  cases hfr : findRuleHit e.rules c cl cc with
  | some rk =>
    obtain ⟨rule, kw⟩ := rk
    left
    refine ⟨rule, kw, rfl, rfl, ?_⟩
    simp [AuditResult.block, AuditResult.init]
  | none =>
    cases hbh : findBuiltinHit BUILTIN_SENSITIVE_WORDS c cc ccl with
    | some bh =>
      cases bh with
      | base w =>
        right
        left
        refine ⟨w, rfl, rfl, rfl, ?_⟩
        simp [AuditResult.block, AuditResult.init]
      | variant b v =>
        right
        right
        refine ⟨b, v, rfl, rfl, rfl, ?_⟩
        simp [AuditResult.block, AuditResult.init]
    | none =>
      rw [hfr] at h
      rw [hbh] at h
      simp [AuditResult.init] at h

theorem inspect_shape (e : RuleEngine) (c t : Str) (hb : isBlankStr c = false) :
    ∃ r, inspect e c t =
      (r, { e with stats := updateStats (bumpChecked e.stats) r t }) := by
  unfold inspect
  simp only [hb, Bool.false_eq_true, if_false]
  repeat' split
  all_goals exact ⟨_, rfl⟩

theorem updateStats_checked (s : Stats) (r : AuditResult) (t : Str) :
    (updateStats s r t).total_checked = s.total_checked := by
  unfold updateStats
  by_cases hd : r.detected
  · simp only [hd, if_true]
    split <;> split <;> rfl
  · simp only [hd, Bool.false_eq_true, if_false]

theorem updateStats_detected_true (s : Stats) (r : AuditResult) (t : Str)
    (hd : r.detected = true) :
    (updateStats s r t).total_detected = s.total_detected + 1 ∧
    (updateStats s r t).total_bypassed = s.total_bypassed := by
  unfold updateStats
  simp only [hd, if_true]
  constructor <;> (split <;> split <;> rfl)

theorem updateStats_detected_false (s : Stats) (r : AuditResult) (t : Str)
    (hd : r.detected = false) :
    (updateStats s r t).total_detected = s.total_detected ∧
    (updateStats s r t).total_bypassed = s.total_bypassed + 1 := by
  unfold updateStats
  simp only [hd, Bool.false_eq_true, if_false]
  constructor <;> trivial

theorem failStep_level (st : AgentState) (p : Str × Str × Nat × Bool) :
    (failStep st p).evolution_level = min (st.evolution_level + 1) 5 := rfl

theorem failStep_fail (st : AgentState) (p : Str × Str × Nat × Bool) :
    (failStep st p).fail_count = st.fail_count + 1 := rfl

theorem foldFail_fail (ps : List (Str × Str × Nat × Bool)) :
    ∀ a : AgentState,
      (ps.foldl failStep a).fail_count = a.fail_count + ps.length := by
  induction ps with
  | nil => intro a; simp
  | cons p rest ih =>
    intro a
    simp only [List.foldl_cons, List.length_cons]
    rw [ih, failStep_fail]
    omega

theorem foldFail_level_le (ps : List (Str × Str × Nat × Bool)) :
    ∀ a : AgentState, a.evolution_level ≤ 5 →
      (ps.foldl failStep a).evolution_level =
        min (a.evolution_level + ps.length) 5 := by
  induction ps with
  | nil => intro a ha; simp; omega
  | cons p rest ih =>
    intro a ha
    simp only [List.foldl_cons, List.length_cons]
    rw [ih (failStep a p) (by rw [failStep_level]; omega), failStep_level]
    omega

theorem foldFail_level (ps : List (Str × Str × Nat × Bool))
    (hn : 1 ≤ ps.length) (a : AgentState) :
    (ps.foldl failStep a).evolution_level =
      min (a.evolution_level + ps.length) 5 := by
  match ps, hn with
  | p :: rest, _ =>
    simp only [List.foldl_cons, List.length_cons]
    rw [foldFail_level_le rest (failStep a p) (by rw [failStep_level]; omega),
      failStep_level]
    omega

theorem battle_ok (o : BattleOracle) (w : World) (pid : Str) (tk : Option Str)
    (it : Nat) (p : Persona) (h : lookupAssoc w.persona_index pid = some p) :
    ∃ r w1, run_adversarial_battle o w pid tk it = (Except.ok r, w1) ∧
      w1.persona_index = w.persona_index := by
  unfold run_adversarial_battle
  rw [h]
  exact ⟨_, _, rfl, rfl⟩

theorem findIdx_last_true {α : Type} (p : α → Bool) :
    ∀ l : List α, (∀ r ∈ l.dropLast, p r = false) →
      ∀ r, l.getLast? = some r → p r = true →
        l.findIdx? p = some (l.length - 1) := by
  intro l
  induction l with
  | nil =>
    intro _ r hr
    simp at hr
  | cons x rest ih =>
    intro hdl r hr hp
    cases rest with
    | nil =>
      simp at hr
      subst hr
      simp [List.findIdx?_cons, hp]
    | cons y rest2 =>
      have hx : p x = false := hdl x (by simp [List.dropLast])
      have hlast : (y :: rest2).getLast? = some r := by
        rw [← hr]
        rfl
      have hdl2 : ∀ s ∈ (y :: rest2).dropLast, p s = false := by
        intro s hs
        refine hdl s ?_
        simp [List.dropLast]
        right
        simpa [List.dropLast] using hs
      have hrec := ih hdl2 r hlast hp
      rw [List.findIdx?_cons, if_neg (by simp [hx]), List.findIdx?_start_succ,
        hrec]
      simp

theorem runIterAux_spec (o : BattleOracle) (pid tk : Str) :
    ∀ (fuel i : Nat) (w : World) (acc : List BattleRecord) (p : Persona),
      lookupAssoc w.persona_index pid = some p →
      ∃ tail w1,
        runIterAux o pid tk fuel i w acc = (Except.ok (acc ++ tail), w1) ∧
        ((tail.length = fuel ∧ ∀ r ∈ tail, r.bypass_success = false) ∨
         (1 ≤ tail.length ∧ tail.length ≤ fuel ∧
          (∀ r ∈ tail.dropLast, r.bypass_success = false) ∧
          ∃ r, tail.getLast? = some r ∧ r.bypass_success = true)) := by
  intro fuel
  induction fuel with
  | zero =>
    intro i w acc p hp
    exact ⟨[], w, by simp [runIterAux], Or.inl ⟨rfl, by simp⟩⟩
  | succ n ih =>
    intro i w acc p hp
    obtain ⟨r, w1, hbat, hidx⟩ := battle_ok o w pid (some tk) i p hp
    unfold runIterAux
    rw [hbat]
    by_cases hbp : r.bypass_success
    · refine ⟨[r], w1, ?_, Or.inr ⟨by simp, by simp, by simp, r, by simp, hbp⟩⟩
      simp [hbp]
    · obtain ⟨tail, w2, hrec, hspec⟩ := ih (i + 1) w1 (acc ++ [r]) p
        (hidx ▸ hp)
      refine ⟨r :: tail, w2, ?_, ?_⟩
      · simp only [hbp, Bool.false_eq_true, if_false]
        rw [hrec]
        simp
      · rcases hspec with ⟨hlen, hall⟩ | ⟨h1, h2, hdl, rr, hl, hb⟩
        · left
          constructor
          · simp [hlen]
          · intro s hs
            rcases List.mem_cons.mp hs with rfl | hs2
            · exact eq_false_of_ne_true hbp
            · exact hall s hs2
        · right
          refine ⟨by simp, by simp only [List.length_cons]; omega, ?_, rr, ?_, hb⟩
          · intro s hs
            cases tail with
            | nil => simp at h1
            | cons tt ts =>
              have hs2 : s = r ∨ s ∈ (tt :: ts).dropLast := by
                simpa [List.dropLast] using hs
              rcases hs2 with rfl | hs3
              · exact eq_false_of_ne_true hbp
              · exact hdl s hs3
          · cases tail with
            | nil => simp at h1
            | cons tt ts =>
              rw [← hl]
              rfl

theorem feedM_fold (category : Str) (now : Nat) :
    ∀ (texts : List Str) (ks : KnowledgeStore) (c0 : Nat),
      texts.foldl (feedMaterialsStep category now) (ks, c0) =
        ({ ks with fed_materials :=
            ks.fed_materials ++ specMaterialsEntries texts category now },
         c0 + (specMaterialsEntries texts category now).length) := by
  intro texts
  induction texts with
  | nil =>
    intro ks c0
    simp [specMaterialsEntries]
  | cons raw rest ih =>
    intro ks c0
    by_cases hc : (!(stripStr raw).isEmpty && decide (5 ≤ (stripStr raw).length)) = true
    · simp only [List.foldl_cons, feedMaterialsStep, hc, if_true]
      rw [ih]
      simp only [specMaterialsEntries, List.filterMap_cons, hc]
      simp [List.append_assoc]
      omega
    · have hc2 : (!(stripStr raw).isEmpty &&
        decide (5 ≤ (stripStr raw).length)) = false := eq_false_of_ne_true hc
      have hspec : specMaterialsEntries (raw :: rest) category now =
          specMaterialsEntries rest category now := by
        unfold specMaterialsEntries
        rw [List.filterMap_cons]
        simp only [hc2, Bool.false_eq_true, if_false]
      simp only [List.foldl_cons, feedMaterialsStep, hc2, Bool.false_eq_true,
        if_false]
      rw [ih, hspec]

theorem feedS_fold (now : Nat) :
    ∀ (entries : List SlangInput) (ks : KnowledgeStore) (c0 : Nat),
      entries.foldl (feedSlangStep now) (ks, c0) =
        ({ ks with fed_slang := ks.fed_slang ++ specSlangEntries entries now },
         c0 + (specSlangEntries entries now).length) := by
  intro entries
  induction entries with
  | nil =>
    intro ks c0
    simp [specSlangEntries]
  | cons entry rest ih =>
    intro ks c0
    cases hp : parseSlang entry with
    | none =>
      have hspec : specSlangEntries (entry :: rest) now =
          specSlangEntries rest now := by
        unfold specSlangEntries
        simp only [List.filterMap_cons, hp]
      simp only [List.foldl_cons, feedSlangStep, hp]
      rw [ih, hspec]
    | some tm =>
      obtain ⟨term, meaning⟩ := tm
      by_cases ht : (!term.isEmpty) = true
      · have hspec : specSlangEntries (entry :: rest) now =
            ⟨term, meaning, now⟩ :: specSlangEntries rest now := by
          unfold specSlangEntries
          simp only [List.filterMap_cons, hp, ht, if_true]
        simp only [List.foldl_cons, feedSlangStep, hp, ht, if_true]
        rw [ih, hspec]
        simp [List.append_assoc]
        omega
      · have ht2 : (!term.isEmpty) = false := eq_false_of_ne_true ht
        have hspec : specSlangEntries (entry :: rest) now =
            specSlangEntries rest now := by
          unfold specSlangEntries
          simp only [List.filterMap_cons, hp, ht2, Bool.false_eq_true, if_false]
        simp only [List.foldl_cons, feedSlangStep, hp, ht2, Bool.false_eq_true,
          if_false]
        rw [ih, hspec]

theorem feedC_fold (now : Nat) :
    ∀ (cs : List CaseInput) (ks : KnowledgeStore) (c0 : Nat),
      cs.foldl (feedCasesStep now) (ks, c0) =
        ({ ks with fed_cases := ks.fed_cases ++ specCaseEntries cs now },
         c0 + (specCaseEntries cs now).length) := by
  intro cs
  induction cs with
  | nil =>
    intro ks c0
    simp [specCaseEntries]
  | cons c rest ih =>
    intro ks c0
    cases c with
    | other =>
      have hspec : specCaseEntries (CaseInput.other :: rest) now =
          specCaseEntries rest now := by
        unfold specCaseEntries
        simp only [List.filterMap_cons]
      simp only [List.foldl_cons, feedCasesStep]
      rw [ih, hspec]
    | dict o b t =>
      by_cases hb : (!(stripStr b).isEmpty) = true
      · have hspec : specCaseEntries (CaseInput.dict o b t :: rest) now =
            ⟨stripStr o, stripStr b, stripStr (t.getD "通用".data), now⟩ ::
              specCaseEntries rest now := by
          unfold specCaseEntries
          simp only [List.filterMap_cons, hb, if_true]
        simp only [List.foldl_cons, feedCasesStep, hb, if_true]
        rw [ih, hspec]
        simp [List.append_assoc]
        omega
      · have hb2 : (!(stripStr b).isEmpty) = false := eq_false_of_ne_true hb
        have hspec : specCaseEntries (CaseInput.dict o b t :: rest) now =
            specCaseEntries rest now := by
          unfold specCaseEntries
          simp only [List.filterMap_cons, hb2, Bool.false_eq_true, if_false]
        simp only [List.foldl_cons, feedCasesStep, hb2, Bool.false_eq_true,
          if_false]
        rw [ih, hspec]

theorem feed_materials_spec (ks : KnowledgeStore) (texts : List Str)
    (category : Str) (now : Nat) :
    (feed_materials ks texts category now).1.fed_materials =
      ks.fed_materials ++ specMaterialsEntries texts category now ∧
    (feed_materials ks texts category now).2 =
      (specMaterialsEntries texts category now).length ∧
    (feed_materials ks texts category now).1.fed_slang = ks.fed_slang ∧
    (feed_materials ks texts category now).1.fed_cases = ks.fed_cases ∧
    (feed_materials ks texts category now).1.version =
      (if 0 < (specMaterialsEntries texts category now).length then
        ks.version + 1 else ks.version) := by
  unfold feed_materials
  rw [feedM_fold]
  simp only [Nat.zero_add]
  by_cases h : 0 < (specMaterialsEntries texts category now).length
  · simp only [h, if_true]
    refine ⟨?_, ?_, ?_, ?_, ?_⟩ <;> trivial
  · simp only [h, if_false]
    refine ⟨?_, ?_, ?_, ?_, ?_⟩ <;> trivial

theorem feed_slang_spec (ks : KnowledgeStore) (entries : List SlangInput)
    (now : Nat) :
    (feed_slang ks entries now).1.fed_slang =
      ks.fed_slang ++ specSlangEntries entries now ∧
    (feed_slang ks entries now).2 = (specSlangEntries entries now).length ∧
    (feed_slang ks entries now).1.fed_materials = ks.fed_materials ∧
    (feed_slang ks entries now).1.fed_cases = ks.fed_cases ∧
    (feed_slang ks entries now).1.version =
      (if 0 < (specSlangEntries entries now).length then
        ks.version + 1 else ks.version) := by
  unfold feed_slang
  rw [feedS_fold]
  simp only [Nat.zero_add]
  by_cases h : 0 < (specSlangEntries entries now).length
  · simp only [h, if_true]
    refine ⟨?_, ?_, ?_, ?_, ?_⟩ <;> trivial
  · simp only [h, if_false]
    refine ⟨?_, ?_, ?_, ?_, ?_⟩ <;> trivial

theorem feed_cases_spec (ks : KnowledgeStore) (cs : List CaseInput)
    (now : Nat) :
    (feed_cases ks cs now).1.fed_cases =
      ks.fed_cases ++ specCaseEntries cs now ∧
    (feed_cases ks cs now).2 = (specCaseEntries cs now).length ∧
    (feed_cases ks cs now).1.fed_materials = ks.fed_materials ∧
    (feed_cases ks cs now).1.fed_slang = ks.fed_slang ∧
    (feed_cases ks cs now).1.version =
      (if 0 < (specCaseEntries cs now).length then
        ks.version + 1 else ks.version) := by
  unfold feed_cases
  rw [feedC_fold]
  simp only [Nat.zero_add]
  by_cases h : 0 < (specCaseEntries cs now).length
  · simp only [h, if_true]
    refine ⟨?_, ?_, ?_, ?_, ?_⟩ <;> trivial
  · simp only [h, if_false]
    refine ⟨?_, ?_, ?_, ?_, ?_⟩ <;> trivial

theorem mem_addVariantsList : ∀ (vs l : List Str) (x : Str), x ∈ l →
    x ∈ addVariantsList l vs := by
  intro vs
  induction vs with
  | nil => intro l x hx; exact hx
  | cons v rest ih =>
    intro l x hx
    unfold addVariantsList
    apply ih
    split
    · exact List.mem_append_left _ hx
    · exact hx

theorem mem_addVariantsList_self : ∀ (vs l : List Str) (v : Str), v ∈ vs →
    v ≠ [] → v ∈ addVariantsList l vs := by
  intro vs
  induction vs with
  | nil => intro l v hv; cases hv
  | cons w rest ih =>
    intro l v hv hne
    unfold addVariantsList
    rcases List.mem_cons.mp hv with rfl | hv2
    · by_cases hc : (!v.isEmpty && !l.contains v) = true
      · rw [if_pos hc]
        exact mem_addVariantsList rest _ v (List.mem_append_right _ (by simp))
      · rw [if_neg hc]
        have hvne : v.isEmpty = false := by
          cases v with
          | nil => exact absurd rfl hne
          | cons a as => rfl
        have hcon : l.contains v = true := by
          rcases Bool.eq_false_or_eq_true (l.contains v) with ht2 | hf
          · exact ht2
          · exfalso
            apply hc
            rw [hvne, hf]
            rfl
        have hmem : v ∈ l := by simpa using hcon
        exact mem_addVariantsList rest _ v hmem
    · split
      · exact ih _ v hv2 hne
      · exact ih _ v hv2 hne

theorem addVariantsList_stable : ∀ (vs l : List Str),
    (∀ v ∈ vs, v = [] ∨ v ∈ l) → addVariantsList l vs = l := by
  intro vs
  induction vs with
  | nil => intro l _; rfl
  | cons w rest ih =>
    intro l h
    unfold addVariantsList
    have hcond : (!w.isEmpty && !l.contains w) = false := by
      rcases h w (by simp) with rfl | hm
      · rfl
      · have : l.contains w = true := by simpa using hm
        rw [this]
        simp
    rw [hcond]
    simp only [Bool.false_eq_true, if_false]
    exact ih l (fun v hv => h v (by simp [hv]))

theorem addVariantsList_idem (l vs : List Str) :
    addVariantsList (addVariantsList l vs) vs = addVariantsList l vs := by
  apply addVariantsList_stable
  intro v hv
  by_cases hne : v = []
  · exact Or.inl hne
  · exact Or.inr (mem_addVariantsList_self vs l v hv hne)

theorem addVariantsList_append : ∀ (vs l : List Str),
    ∃ new, addVariantsList l vs = l ++ new := by
  intro vs
  induction vs with
  | nil => intro l; exact ⟨[], by simp [addVariantsList]⟩
  | cons w rest ih =>
    intro l
    unfold addVariantsList
    by_cases hc : (!w.isEmpty && !l.contains w) = true
    · rw [if_pos hc]
      obtain ⟨new, hnew⟩ := ih (l ++ [w])
      exact ⟨w :: new, by rw [hnew]; simp⟩
    · rw [if_neg hc]
      exact ih l

theorem addVariantsList_nodup : ∀ (vs l : List Str), l.Nodup →
    (addVariantsList l vs).Nodup := by
  intro vs
  induction vs with
  | nil => intro l h; exact h
  | cons w rest ih =>
    intro l h
    unfold addVariantsList
    by_cases hc : (!w.isEmpty && !l.contains w) = true
    · rw [if_pos hc]
      apply ih
      have hnm : w ∉ l := by
        have := (Bool.and_eq_true _ _).mp hc
        have h2 := this.2
        simp at h2
        exact h2
      simp [List.nodup_append, h, hnm]
    · rw [if_neg hc]
      exact ih l h

theorem updateVariantEntry_twice : ∀ (m : List (Str × List Str)) (b : Str)
    (vs : List Str),
    updateVariantEntry (updateVariantEntry m b vs) b vs =
      updateVariantEntry m b vs := by
  intro m
  induction m with
  | nil => intro b vs; rfl
  | cons kl rest ih =>
    intro b vs
    obtain ⟨k, l⟩ := kl
    by_cases hk : (k == b) = true
    · have h1 : updateVariantEntry ((k, l) :: rest) b vs =
          (k, addVariantsList l vs) :: rest := by
        unfold updateVariantEntry
        rw [if_pos hk]
      have h2 : updateVariantEntry ((k, addVariantsList l vs) :: rest) b vs =
          (k, addVariantsList (addVariantsList l vs) vs) :: rest := by
        unfold updateVariantEntry
        rw [if_pos hk]
      rw [h1, h2, addVariantsList_idem]
    · have h1 : updateVariantEntry ((k, l) :: rest) b vs =
          (k, l) :: updateVariantEntry rest b vs := by
        simp only [updateVariantEntry]
        rw [if_neg hk]
      have h2 : updateVariantEntry ((k, l) :: updateVariantEntry rest b vs)
          b vs = (k, l) :: updateVariantEntry (updateVariantEntry rest b vs)
            b vs := by
        simp only [updateVariantEntry]
        rw [if_neg hk]
      rw [h1, h2, ih]

theorem updateVariantEntry_haskey : ∀ (m : List (Str × List Str)) (b : Str)
    (vs : List Str),
    ((updateVariantEntry m b vs).find? (fun p => p.1 == b)).isSome =
      (m.find? (fun p => p.1 == b)).isSome := by
  intro m
  induction m with
  | nil => intro b vs; rfl
  | cons kl rest ih =>
    intro b vs
    obtain ⟨k, l⟩ := kl
    by_cases hk : (k == b) = true
    · have h1 : updateVariantEntry ((k, l) :: rest) b vs =
          (k, addVariantsList l vs) :: rest := by
        unfold updateVariantEntry
        rw [if_pos hk]
      rw [h1]
      rw [List.find?_cons_of_pos _ (by simpa using hk),
        List.find?_cons_of_pos _ (by simpa using hk)]
      rfl
    · have h1 : updateVariantEntry ((k, l) :: rest) b vs =
          (k, l) :: updateVariantEntry rest b vs := by
        simp only [updateVariantEntry]
        rw [if_neg hk]
      rw [h1]
      rw [List.find?_cons_of_neg _ (by simpa using hk),
        List.find?_cons_of_neg _ (by simpa using hk)]
      exact ih b vs

theorem find_haskey_append_self : ∀ (m : List (Str × List Str)) (b : Str),
    ((m ++ [(b, ([] : List Str))]).find? (fun p => p.1 == b)).isSome = true := by
  intro m
  induction m with
  | nil =>
    intro b
    simp [List.find?_cons]
  | cons kl rest ih =>
    intro b
    obtain ⟨k, l⟩ := kl
    by_cases hk : (k == b) = true
    · rw [List.cons_append, List.find?_cons_of_pos _ (by simpa using hk)]
      rfl
    · rw [List.cons_append, List.find?_cons_of_neg _ (by simpa using hk)]
      exact ih b

theorem add_custom_variants_idem (e : RuleEngine) (b : Str) (vs : List Str) :
    add_custom_variants (add_custom_variants e b vs) b vs =
      add_custom_variants e b vs := by
  by_cases h : (e.custom_variants.find? (fun p => p.1 == b)).isSome = true
  · unfold add_custom_variants
    have h2 : ((updateVariantEntry e.custom_variants b vs).find?
        (fun p => p.1 == b)).isSome = true := by
      rw [updateVariantEntry_haskey]
      exact h
    simp only [h, h2, if_true, updateVariantEntry_twice]
  · have hf : (e.custom_variants.find? (fun p => p.1 == b)).isSome = false :=
      eq_false_of_ne_true h
    unfold add_custom_variants
    have h2 : ((updateVariantEntry (e.custom_variants ++ [(b, [])]) b vs).find?
        (fun p => p.1 == b)).isSome = true := by
      rw [updateVariantEntry_haskey]
      exact find_haskey_append_self e.custom_variants b
    simp only [hf, Bool.false_eq_true, if_false, h2, if_true,
      updateVariantEntry_twice]

/-! ### Claim theorems, counterexamples and witnesses -/

/-- Claim C1, counterexample: the claim quantifies over every content string, but a whitespace-only content can match layer 1 (a whitespace rule keyword) and layer 4 (a whitespace learned variant) while inspect returns the non-detected result, because the blank-content check precedes the layers. -/
theorem c1_counterexample :
    layerFires engC1 "  ".data 1 = true ∧
    layerFires engC1 "  ".data 4 = true ∧
    (inspect engC1 "  ".data []).1.detected = false ∧
    (inspect engC1 "  ".data []).1.hit_layer_num = 0 := by
  refine ⟨by decide, by decide, by decide, by decide⟩

/-- Claim C1 (amended to non-blank content): for every non-blank content, if layer i matches (and i < j ≤ 5), inspect reports a layer number that is at least 1, at most i (hence before j), equal to the first matching layer, and the result is exactly that layer's output, with no earlier layer matching. -/
theorem c1_short_circuit_first_match (e : RuleEngine) (c t : Str) (i j : Nat)
    (hb : isBlankStr c = false) (hi : 1 ≤ i) (hij : i < j) (hj : j ≤ 5)
    (hfi : layerFires e c i = true) :
    (inspect e c t).1.detected = true ∧
    1 ≤ (inspect e c t).1.hit_layer_num ∧
    (inspect e c t).1.hit_layer_num ≤ i ∧
    (inspect e c t).1.hit_layer = layerNameOf (inspect e c t).1.hit_layer_num ∧
    (inspect e c t).1 =
      runLayerOn e c (inspect e c t).1.hit_layer_num AuditResult.init ∧
    layerFires e c (inspect e c t).1.hit_layer_num = true ∧
    (∀ m, 1 ≤ m → m < (inspect e c t).1.hit_layer_num →
      layerFires e c m = false) ∧
    (inspect e c t).1.hit_layer_num < j := by
  rw [inspect_fst_eq e c t hb]
  have hmem : i ∈ [1, 2, 3, 4, 5] := by
    have : i ≤ 4 := by omega
    interval_cases i <;> simp
  have hex : ∃ x ∈ [1, 2, 3, 4, 5], layerFires e c x = true := ⟨i, hmem, hfi⟩
  obtain ⟨k, hk⟩ : ∃ k, [1, 2, 3, 4, 5].find? (layerFires e c) = some k := by
    cases hfind : [1, 2, 3, 4, 5].find? (layerFires e c) with
    | some k => exact ⟨k, rfl⟩
    | none =>
      exfalso
      obtain ⟨x, hx, hpx⟩ := hex
      have := List.find?_eq_none.mp hfind x hx
      simp [hpx] at this
  rw [hk]
  have hkmem : k ∈ [1, 2, 3, 4, 5] := List.mem_of_find?_eq_some hk
  have hkfir : layerFires e c k = true := List.find?_some hk
  have hk1 : 1 ≤ k ∧ k ≤ 5 := by
    fin_cases hkmem <;> simp
  have hki : k ≤ i := by
    by_contra hgt
    push_neg at hgt
    have := find5_min (layerFires e c) k hk i hi hgt
    simp [hfi] at this
  have hshape := runLayer_blocked e c k hkfir
  refine ⟨hkfir, ?_, ?_, ?_, ?_, ?_, ?_, ?_⟩
  · rw [hshape.2]; exact hk1.1
  · rw [hshape.2]; exact hki
  · rw [hshape.2]; exact hshape.1
  · rw [hshape.2]
  · rw [hshape.2]; exact hkfir
  · rw [hshape.2]; exact fun m h1 h2 => find5_min (layerFires e c) k hk m h1 h2
  · rw [hshape.2]; omega

/-- Witness for c1_short_circuit_first_match at a concrete engine and content. -/
theorem c1_short_circuit_first_match_witness :
    isBlankStr "I like XY".data = false ∧
    layerFires engC5A "I like XY".data 1 = true ∧
    (inspect engC5A "I like XY".data []).1.detected = true ∧
    (inspect engC5A "I like XY".data []).1.hit_layer_num < 2 := by
  have h := c1_short_circuit_first_match engC5A "I like XY".data [] 1 2
    (by decide) (by decide) (by decide) (by decide) (by decide)
  exact ⟨by decide, by decide, h.1, h.2.2.2.2.2.2.2⟩

/-- Claim C2: for every input, the audit result's layer number is at most 5, detected holds exactly when the hit layer is not the empty (none) value, the (hit_layer, hit_layer_num) pair is one of the six canonical pairs (the bijection 0-none, 1-keyword, 2-pinyin, 3-regex, 4-variant, 5-semantic), and non-detection coincides with layer number 0; the result carries a single such pair by construction. -/
theorem c2_audit_result_invariants (e : RuleEngine) (c t : Str) :
    (inspect e c t).1.hit_layer_num ≤ 5 ∧
    ((inspect e c t).1.detected = true ↔ (inspect e c t).1.hit_layer ≠ []) ∧
    ((inspect e c t).1.hit_layer, (inspect e c t).1.hit_layer_num) ∈
      [(([] : Str), 0), ("keyword".data, 1), ("pinyin".data, 2),
       ("regex".data, 3), ("variant".data, 4), ("semantic".data, 5)] ∧
    ((inspect e c t).1.detected = false ↔ (inspect e c t).1.hit_layer_num = 0) := by
  by_cases hb : isBlankStr c
  · have hinit : (inspect e c t).1 = AuditResult.init := by
      unfold inspect
      simp [hb]
    rw [hinit]
    refine ⟨?_, ?_, ?_, ?_⟩ <;> simp [AuditResult.init]
  · have hbf : isBlankStr c = false := eq_false_of_ne_true hb
    rw [inspect_fst_eq e c t hbf]
    cases hk : [1, 2, 3, 4, 5].find? (layerFires e c) with
    | none => refine ⟨?_, ?_, ?_, ?_⟩ <;> simp [AuditResult.init]
    | some k =>
      have hkmem := List.mem_of_find?_eq_some hk
      have hkfir : layerFires e c k = true := List.find?_some hk
      have hshape := runLayer_blocked e c k hkfir
      refine ⟨?_, ?_, ?_, ?_⟩
      · rw [hshape.2]; fin_cases hkmem <;> simp
      · constructor
        · intro _
          rw [hshape.1]
          fin_cases hkmem <;> simp [layerNameOf]
        · intro _
          exact hkfir
      · rw [hshape.1, hshape.2]
        fin_cases hkmem <;> decide
      · constructor
        · intro hdf
          have hdt : (runLayerOn e c k AuditResult.init).detected = true := hkfir
          simp only at hdf
          rw [hdt] at hdf
          cases hdf
        · intro h0
          exfalso
          simp only at h0
          rw [hshape.2] at h0
          fin_cases hkmem <;> omega

/-- Claim C3: for every empty or whitespace-only content, inspect returns the fresh non-detected AuditResult (detected false, empty hit layer, layer number 0, confidence 0, empty rule and keyword lists) for every rule set and knowledge state; the function is total, so no exception is possible. -/
theorem c3_blank_content_safe (e : RuleEngine) (c t : Str) (h : isBlankStr c = true) :
    (inspect e c t).1 = AuditResult.init ∧
    (inspect e c t).1.detected = false ∧
    (inspect e c t).1.hit_layer = [] ∧
    (inspect e c t).1.hit_layer_num = 0 ∧
    (inspect e c t).1.confidence = 0 ∧
    (inspect e c t).1.hit_rules = [] ∧
    (inspect e c t).1.hit_keywords = [] := by
  have hinit : (inspect e c t).1 = AuditResult.init := by
    unfold inspect
    simp [h]
  rw [hinit]
  exact ⟨rfl, rfl, rfl, rfl, rfl, rfl, rfl⟩

/-- Witness for c3_blank_content_safe on a one-space content. -/
theorem c3_blank_content_safe_witness :
    isBlankStr " ".data = true ∧
    (inspect (RuleEngine.init none) " ".data []).1 = AuditResult.init :=
  ⟨by decide,
    (c3_blank_content_safe (RuleEngine.init none) " ".data [] (by decide)).1⟩

/-- Claim C4: one detected outcome (learn_from_result with success = false) unconditionally sets evolution_level to min(level + 1, 5) and increments fail_count; over any nonempty sequence of detected outcomes the level moves from L to min(L + n, 5), the fail count grows by n, the level never decreases when it started within [1,5], and never exceeds 5. -/
theorem c4_escalation_monotonic (a : AgentState) (tech hl : Str) (hn : Nat) (rf : Bool)
    (ps : List (Str × Str × Nat × Bool)) (hps : 1 ≤ ps.length) :
    (learn_from_result a false tech true hl hn rf).evolution_level =
      min (a.evolution_level + 1) 5 ∧
    (learn_from_result a false tech true hl hn rf).fail_count =
      a.fail_count + 1 ∧
    (ps.foldl failStep a).evolution_level =
      min (a.evolution_level + ps.length) 5 ∧
    (ps.foldl failStep a).fail_count = a.fail_count + ps.length ∧
    (a.evolution_level ≤ 5 →
      a.evolution_level ≤ (ps.foldl failStep a).evolution_level) ∧
    (ps.foldl failStep a).evolution_level ≤ 5 := by
  refine ⟨rfl, rfl, foldFail_level ps hps a, foldFail_fail ps a, ?_, ?_⟩
  · intro ha
    rw [foldFail_level ps hps a]
    omega
  · rw [foldFail_level ps hps a]
    omega

/-- Witness for c4_escalation_monotonic: three detections move a fresh agent
from level 1 to level 4 with fail count 3. -/
theorem c4_escalation_monotonic_witness :
    1 ≤ psC4.length ∧
    (psC4.foldl failStep AgentState.init).evolution_level = 4 ∧
    (psC4.foldl failStep AgentState.init).fail_count = 3 := by
  have h := c4_escalation_monotonic AgentState.init "谐音替代".data
    "keyword".data 1 false psC4 (by decide)
  refine ⟨by decide, ?_, ?_⟩
  · rw [h.2.2.1]
    decide
  · rw [h.2.2.2.1]
    decide

/-- Claim C5, counterexample: the claim's literal scenario rule {id: R01, keywords: [X]} with content I like X is NOT detected, because _layer1_keyword skips keywords shorter than 2 characters (and no built-in term occurs in the content), contradicting detected = true. -/
theorem c5_counterexample :
    (inspect engC5 "I like X".data []).1.detected = false := by decide

/-- Claim C5 (amended): whenever the keyword layer fires, the confidence is
exactly 1 for a rule-keyword match (equivalently, when matched rules are
reported), exactly 0.95 precisely when the built-in scan matched a base term
(no rule keyword having matched), and exactly 0.9 precisely when it matched
an enumerated variant; the scenario holds once the keyword has the required
length of at least 2: rule {id: R01, keywords: [XY]} with content I like XY
is detected at the keyword layer with confidence 1. -/
theorem c5_keyword_confidence (e : RuleEngine) (c t : Str)
    (h : (inspect e c t).1.hit_layer = "keyword".data) :
    ((inspect e c t).1.confidence = 1 ∨ (inspect e c t).1.confidence = 0.95 ∨
      (inspect e c t).1.confidence = 0.9) ∧
    ((inspect e c t).1.confidence = 1 ↔ (inspect e c t).1.hit_rules ≠ []) ∧
    ((inspect e c t).1.confidence = 0.95 ↔
      ∃ w, findRuleHit e.rules c (lowerStr c) (cleanStr c) = none ∧
        findBuiltinHit BUILTIN_SENSITIVE_WORDS c (cleanStr c)
          (lowerStr (cleanStr c)) = some (BuiltinHit.base w)) ∧
    ((inspect e c t).1.confidence = 0.9 ↔
      ∃ b v, findRuleHit e.rules c (lowerStr c) (cleanStr c) = none ∧
        findBuiltinHit BUILTIN_SENSITIVE_WORDS c (cleanStr c)
          (lowerStr (cleanStr c)) = some (BuiltinHit.variant b v)) ∧
    ((inspect engC5A "I like XY".data []).1.detected = true ∧
      (inspect engC5A "I like XY".data []).1.hit_layer = "keyword".data ∧
      (inspect engC5A "I like XY".data []).1.hit_layer_num = 1 ∧
      (inspect engC5A "I like XY".data []).1.confidence = 1) := by
  have scen : (inspect engC5A "I like XY".data []).1.detected = true ∧
      (inspect engC5A "I like XY".data []).1.hit_layer = "keyword".data ∧
      (inspect engC5A "I like XY".data []).1.hit_layer_num = 1 ∧
      (inspect engC5A "I like XY".data []).1.confidence = 1 :=
    ⟨by decide, by decide, by decide, rfl⟩
  by_cases hb : isBlankStr c
  · exfalso
    have hinit : (inspect e c t).1 = AuditResult.init := by
      unfold inspect
      simp [hb]
    rw [hinit] at h
    exact absurd h (by decide)
  · have hbf : isBlankStr c = false := eq_false_of_ne_true hb
    rw [inspect_fst_eq e c t hbf] at h ⊢
    cases hk : [1, 2, 3, 4, 5].find? (layerFires e c) with
    | none =>
      rw [hk] at h
      simp only at h
      exact absurd h (by decide)
    | some k =>
      rw [hk] at h
      simp only at h ⊢
      have hkmem := List.mem_of_find?_eq_some hk
      have hkfir : layerFires e c k = true := List.find?_some hk
      have hshape := runLayer_blocked e c k hkfir
      rw [hshape.1] at h
      have hk1 : k = 1 := by
        fin_cases hkmem <;> first | rfl | exact absurd h (by decide)
      subst hk1
      have hdet : (layer1_keyword e c (lowerStr c) (cleanStr c)
          (lowerStr (cleanStr c)) AuditResult.init).detected = true := hkfir
      have hrun : runLayerOn e c 1 AuditResult.init =
          layer1_keyword e c (lowerStr c) (cleanStr c)
            (lowerStr (cleanStr c)) AuditResult.init := rfl
      rw [hrun]
      have hcc := layer1_cases e c (lowerStr c) (cleanStr c)
        (lowerStr (cleanStr c)) hdet
      rcases hcc with ⟨rule, kw, hfr, hconf, hrules⟩ |
        ⟨w, hfrn, hbh, hconf, hrules⟩ | ⟨b, v, hfrn, hbh, hconf, hrules⟩
      · refine ⟨Or.inl hconf, ?_, ?_, ?_, scen⟩
        · constructor
          · intro _
            rw [hrules]
            simp
          · intro _
            exact hconf
        · constructor
          · intro h95
            rw [hconf] at h95
            norm_num at h95
          · rintro ⟨w, hnone, -⟩
            rw [hfr] at hnone
            cases hnone
        · constructor
          · intro h9
            rw [hconf] at h9
            norm_num at h9
          · rintro ⟨b, v, hnone, -⟩
            rw [hfr] at hnone
            cases hnone
      · refine ⟨Or.inr (Or.inl hconf), ?_, ?_, ?_, scen⟩
        · constructor
          · intro h1
            rw [hconf] at h1
            norm_num at h1
          · intro hne
            rw [hrules] at hne
            exact absurd rfl hne
        · constructor
          · intro _
            exact ⟨w, hfrn, hbh⟩
          · intro _
            exact hconf
        · constructor
          · intro h9
            rw [hconf] at h9
            norm_num at h9
          · rintro ⟨b, v, -, hbh2⟩
            rw [hbh] at hbh2
            simp at hbh2
      · refine ⟨Or.inr (Or.inr hconf), ?_, ?_, ?_, scen⟩
        · constructor
          · intro h1
            rw [hconf] at h1
            norm_num at h1
          · intro hne
            rw [hrules] at hne
            exact absurd rfl hne
        · constructor
          · intro h95
            rw [hconf] at h95
            norm_num at h95
          · rintro ⟨w, -, hbh2⟩
            rw [hbh] at hbh2
            simp at hbh2
        · constructor
          · intro _
            exact ⟨b, v, hfrn, hbh⟩
          · intro _
            exact hconf

/-- Witness for c5_keyword_confidence at the scenario engine (rule hit,
confidence 1) and at a built-in variant hit (正负, confidence 0.9). -/
theorem c5_keyword_confidence_witness :
    (inspect engC5A "I like XY".data []).1.hit_layer = "keyword".data ∧
    ((inspect engC5A "I like XY".data []).1.confidence = 1 ↔
      (inspect engC5A "I like XY".data []).1.hit_rules ≠ []) ∧
    (inspect (RuleEngine.init none) "平时爱吃正负号".data []).1.hit_layer =
      "keyword".data ∧
    (∃ b v, findRuleHit (RuleEngine.init none).rules "平时爱吃正负号".data
        (lowerStr "平时爱吃正负号".data) (cleanStr "平时爱吃正负号".data) =
          none ∧
      findBuiltinHit BUILTIN_SENSITIVE_WORDS "平时爱吃正负号".data
        (cleanStr "平时爱吃正负号".data)
        (lowerStr (cleanStr "平时爱吃正负号".data)) =
          some (BuiltinHit.variant b v)) := by
  have h := c5_keyword_confidence engC5A "I like XY".data [] (by decide)
  have h2 := c5_keyword_confidence (RuleEngine.init none)
    "平时爱吃正负号".data [] (by decide)
  exact ⟨by decide, h.2.1, by decide, h2.2.2.2.1.mp rfl⟩

/-- Claim C6: with no transliteration capability the pinyin layer is the identity on every input; with capability py it detects exactly when some candidate term (built-in base term or valid rule keyword) has a phonetic form of length at least 4 occurring in the cleaned content's phonetic form while the literal term is absent from the cleaned content, and a detection reports layer pinyin, number 2, confidence 0.85; the layer never raises. -/
theorem c6_pinyin_layer (e : RuleEngine) (c : Str) (r : AuditResult) (py : Str → Str) :
    (e.pinyin = none → layer2_pinyin e (cleanStr c) r = r) ∧
    (e.pinyin = some py →
      (((layer2_pinyin e (cleanStr c) AuditResult.init).detected = true) ↔
        ∃ w ∈ pinyinCandidates e, 4 ≤ (py w).length ∧
          isSubstr (py w) (py (cleanStr c)) = true ∧
          isSubstr w (cleanStr c) = false) ∧
      ((layer2_pinyin e (cleanStr c) AuditResult.init).detected = true →
        (layer2_pinyin e (cleanStr c) AuditResult.init).hit_layer =
          "pinyin".data ∧
        (layer2_pinyin e (cleanStr c) AuditResult.init).hit_layer_num = 2 ∧
        (layer2_pinyin e (cleanStr c) AuditResult.init).confidence = 0.85)) := by
  constructor
  · intro hn
    unfold layer2_pinyin
    rw [hn]
  · intro hs
    unfold layer2_pinyin
    rw [hs]
    simp only
    cases hf : (pinyinCandidates e).find? (fun word =>
      decide (4 ≤ (py word).length) &&
        isSubstr (py word) (py (cleanStr c)) &&
        !isSubstr word (cleanStr c)) with
    | some w =>
      have hmem := List.mem_of_find?_eq_some hf
      have hp := List.find?_some hf
      simp only [Bool.and_eq_true, decide_eq_true_eq, Bool.not_eq_true'] at hp
      constructor
      · constructor
        · intro _
          exact ⟨w, hmem, hp.1.1, hp.1.2, hp.2⟩
        · intro _
          rfl
      · intro _
        exact ⟨rfl, rfl, rfl⟩
    | none =>
      constructor
      · constructor
        · intro hd
          simp [AuditResult.init] at hd
        · intro ⟨w, hw, h4, hsub, habs⟩
          exfalso
          have := List.find?_eq_none.mp hf w hw
          simp only [Bool.and_eq_true, decide_eq_true_eq,
            Bool.not_eq_true'] at this
          exact this ⟨⟨h4, hsub⟩, habs⟩
      · intro hd
        simp [AuditResult.init] at hd

/-- Witness for c6_pinyin_layer: lowercasing transliteration, keyword ABCD,
content abcd fires the layer. -/
theorem c6_pinyin_layer_witness :
    engC6.pinyin = some lowerStr ∧
    (layer2_pinyin engC6 (cleanStr "abcd".data) AuditResult.init).detected =
      true := by
  have h := (c6_pinyin_layer engC6 "abcd".data AuditResult.init lowerStr).2 rfl
  refine ⟨rfl, h.1.mpr ?_⟩
  exact ⟨"ABCD".data, by decide, by decide, by decide, by decide⟩

/-- Claim C7, counterexample: feed_materials does not de-duplicate: feeding the same material twice stores it twice, so Knowledge Store additions are not all duplicate-free and a second identical call is not idempotent. -/
theorem c7_counterexample :
    (feed_materials KnowledgeStore.init ["hello".data] "通用".data
      0).1.fed_materials.length = 1 ∧
    (feed_materials (feed_materials KnowledgeStore.init ["hello".data]
        "通用".data 0).1 ["hello".data] "通用".data
      0).1.fed_materials.length = 2 :=
  ⟨by decide, by decide⟩

/-- Claim C7 (amended): teaching variants (add_custom_variants) is de-duplicated and idempotent on a repeated identical call, keeps entry lists duplicate-free and append-only, but returns no count and the engine has no version counter; the feed operations (materials, slang, cases) are append-only, return the count of entries actually appended, and strictly increase the version exactly when that count is positive, but do not de-duplicate. -/
theorem c7_knowledge_store_ops (e : RuleEngine) (b : Str) (vs : List Str)
    (ks : KnowledgeStore) (texts : List Str) (cat : Str)
    (slang : List SlangInput) (cs : List CaseInput) (now : Nat) :
    add_custom_variants (add_custom_variants e b vs) b vs =
      add_custom_variants e b vs ∧
    (∀ l : List Str, l.Nodup → (addVariantsList l vs).Nodup) ∧
    (∀ l : List Str, ∃ new, addVariantsList l vs = l ++ new) ∧
    (feed_materials ks texts cat now).1.fed_materials =
      ks.fed_materials ++ specMaterialsEntries texts cat now ∧
    (feed_materials ks texts cat now).2 =
      (specMaterialsEntries texts cat now).length ∧
    (feed_materials ks texts cat now).1.version =
      (if 0 < (feed_materials ks texts cat now).2 then ks.version + 1
        else ks.version) ∧
    (feed_slang ks slang now).1.fed_slang =
      ks.fed_slang ++ specSlangEntries slang now ∧
    (feed_slang ks slang now).2 = (specSlangEntries slang now).length ∧
    (feed_slang ks slang now).1.version =
      (if 0 < (feed_slang ks slang now).2 then ks.version + 1
        else ks.version) ∧
    (feed_cases ks cs now).1.fed_cases =
      ks.fed_cases ++ specCaseEntries cs now ∧
    (feed_cases ks cs now).2 = (specCaseEntries cs now).length ∧
    (feed_cases ks cs now).1.version =
      (if 0 < (feed_cases ks cs now).2 then ks.version + 1
        else ks.version) := by
  obtain ⟨hm1, hm2, _, _, hm5⟩ := feed_materials_spec ks texts cat now
  obtain ⟨hs1, hs2, _, _, hs5⟩ := feed_slang_spec ks slang now
  obtain ⟨hc1, hc2, _, _, hc5⟩ := feed_cases_spec ks cs now
  refine ⟨add_custom_variants_idem e b vs,
    fun l hl => addVariantsList_nodup vs l hl,
    fun l => addVariantsList_append vs l,
    hm1, hm2, ?_, hs1, hs2, ?_, hc1, hc2, ?_⟩
  · rw [hm2, hm5]
  · rw [hs2, hs5]
  · rw [hc2, hc5]

/-- Witness for c7_knowledge_store_ops on concrete inputs. -/
theorem c7_knowledge_store_ops_witness :
    (feed_materials KnowledgeStore.init ["hello".data] "通用".data 0).2 = 1 ∧
    (addVariantsList [] ["v1".data]).Nodup := by
  have h := c7_knowledge_store_ops (RuleEngine.init none) "基".data
    ["v1".data] KnowledgeStore.init ["hello".data] "通用".data [] [] 0
  refine ⟨?_, h.2.1 [] List.nodup_nil⟩
  rw [h.2.2.2.2.1]
  decide

/-- Claim C8: for a persona present in the index and max_n rounds allowed, the iterative optimization returns a record whose executed rounds number between 1 and max_n, every round before the last is a failed bypass, an early stop (fewer than max_n rounds) means the last round bypassed, and success_iteration is the index of the first bypassing round (the findIdx? of the bypass flag), absent exactly when no round bypassed; when present it points at the final round, the first success. -/
theorem c8_iterative_optimization_stops (o : BattleOracle) (w : World) (pid tk : Str) (max_n : Nat)
    (p : Persona) (hp : lookupAssoc w.persona_index pid = some p)
    (hmax : 1 ≤ max_n) :
    ∃ rec, (run_iterative_optimization o w pid tk max_n).1 = Except.ok rec ∧
      rec.iterations.length ≤ max_n ∧
      1 ≤ rec.iterations.length ∧
      rec.total_iterations = rec.iterations.length ∧
      (∀ r ∈ rec.iterations.dropLast, r.bypass_success = false) ∧
      (rec.iterations.length < max_n →
        ∃ r, rec.iterations.getLast? = some r ∧ r.bypass_success = true) ∧
      rec.success_iteration =
        rec.iterations.findIdx? (fun r => r.bypass_success) ∧
      (rec.success_iteration = none ↔
        ∀ r ∈ rec.iterations, r.bypass_success = false) ∧
      (∀ j, rec.success_iteration = some j → j + 1 = rec.iterations.length ∧
        ∃ r, rec.iterations.getLast? = some r ∧ r.bypass_success = true) := by
  obtain ⟨tail, w1, hrun, hspec⟩ := runIterAux_spec o pid tk max_n 0 w [] p hp
  unfold run_iterative_optimization
  rw [hrun]
  simp only [List.nil_append]
  refine ⟨_, rfl, ?_⟩
  simp only
  rcases hspec with ⟨hlen, hall⟩ | ⟨h1, h2, hdl, rr, hl, hb⟩
  · have hnone : tail.findIdx? (fun r => r.bypass_success) = none :=
      List.findIdx?_eq_none_iff.mpr hall
    refine ⟨by omega, by omega, trivial, ?_, ?_, trivial, ?_, ?_⟩
    · intro s hs
      exact hall s (List.dropLast_subset tail hs)
    · intro hlt
      omega
    · exact iff_of_true hnone hall
    · intro j hj
      rw [hnone] at hj
      cases hj
  · have hsome : tail.findIdx? (fun r => r.bypass_success) =
        some (tail.length - 1) :=
      findIdx_last_true (fun r => r.bypass_success) tail hdl rr hl hb
    refine ⟨h2, h1, trivial, hdl, ?_, trivial, ?_, ?_⟩
    · intro _
      exact ⟨rr, hl, hb⟩
    · refine iff_of_false (by simp [hsome]) ?_
      intro hallf
      have := hallf rr (List.mem_of_getLast?_eq_some hl)
      rw [hb] at this
      cases this
    · intro j hj
      rw [hsome] at hj
      have hj1 : j = tail.length - 1 := by
        cases hj
        rfl
      constructor
      · omega
      · exact ⟨rr, hl, hb⟩

/-- Witness for c8_iterative_optimization_stops on a concrete world. -/
theorem c8_iterative_optimization_stops_witness :
    lookupAssoc worldW.persona_index "p1".data = some personaW ∧
    ∃ rec,
      (run_iterative_optimization oracleW worldW "p1".data "话".data 3).1 =
        Except.ok rec ∧ rec.iterations.length ≤ 3 := by
  have h := c8_iterative_optimization_stops oracleW worldW "p1".data "话".data
    3 personaW (by decide) (by decide)
  obtain ⟨rec, h1, h2, _⟩ := h
  exact ⟨by decide, rec, h1, h2⟩

/-- Claim C9: a persona id absent from the persona index makes run_adversarial_battle return the explicit not-found error dict and leave the whole world (battle history, every persona's state, engine and inspector statistics, knowledge store) unchanged. -/
theorem c9_unknown_persona_atomic (o : BattleOracle) (w : World) (pid : Str) (tk : Option Str)
    (it : Nat) (h : lookupAssoc w.persona_index pid = none) :
    run_adversarial_battle o w pid tk it = (Except.error "Agent不存在".data, w) := by
  unfold run_adversarial_battle
  rw [h]

/-- Witness for c9_unknown_persona_atomic on the empty world. -/
theorem c9_unknown_persona_atomic_witness :
    lookupAssoc worldEmpty.persona_index "p9".data = none ∧
    run_adversarial_battle oracleW worldEmpty "p9".data none 0 =
      (Except.error "Agent不存在".data, worldEmpty) :=
  ⟨rfl, c9_unknown_persona_atomic oracleW worldEmpty "p9".data none 0 rfl⟩

/-- Claim C10: for non-blank content, inspect leaves the rule set, the keyword index, the learned variants, the LLM handle and the transliteration handle unchanged, increments the checked counter, and increments exactly one of total_detected / total_bypassed according to the returned detected flag. -/
theorem c10_inspect_frame (e : RuleEngine) (c t : Str) (hb : isBlankStr c = false) :
    (inspect e c t).2.rules = e.rules ∧
    (inspect e c t).2.rule_keywords = e.rule_keywords ∧
    (inspect e c t).2.custom_variants = e.custom_variants ∧
    (inspect e c t).2.llm = e.llm ∧
    (inspect e c t).2.pinyin = e.pinyin ∧
    (inspect e c t).2.stats.total_checked = e.stats.total_checked + 1 ∧
    ((inspect e c t).1.detected = true →
      (inspect e c t).2.stats.total_detected = e.stats.total_detected + 1 ∧
      (inspect e c t).2.stats.total_bypassed = e.stats.total_bypassed) ∧
    ((inspect e c t).1.detected = false →
      (inspect e c t).2.stats.total_detected = e.stats.total_detected ∧
      (inspect e c t).2.stats.total_bypassed = e.stats.total_bypassed + 1) := by
  obtain ⟨r, hr⟩ := inspect_shape e c t hb
  rw [hr]
  refine ⟨rfl, rfl, rfl, rfl, rfl, ?_, ?_, ?_⟩
  · rw [updateStats_checked]
    rfl
  · intro hd
    simp only at hd
    exact updateStats_detected_true (bumpChecked e.stats) r t hd
  · intro hd
    simp only at hd
    exact updateStats_detected_false (bumpChecked e.stats) r t hd

/-- Witness for c10_inspect_frame on undetected content. -/
theorem c10_inspect_frame_witness :
    isBlankStr "hello".data = false ∧
    (inspect (RuleEngine.init none) "hello".data []).1.detected = false ∧
    (inspect (RuleEngine.init none) "hello".data []).2.stats.total_bypassed =
      (RuleEngine.init none).stats.total_bypassed + 1 := by
  have h := c10_inspect_frame (RuleEngine.init none) "hello".data []
    (by decide)
  have hd : (inspect (RuleEngine.init none) "hello".data []).1.detected =
      false := by decide
  exact ⟨by decide, hd, (h.2.2.2.2.2.2.2 hd).2⟩

end DTwin
